import Mathlib

/-!
# case-changer: a verification development of `main.go`

The program reads delimited lines, rewrites the fields selected by `-targets`
into the style selected by `-case`, and prints the rejoined lines.

Modelling conventions.

* A Go `string` is a finite sequence of bytes: `GoString := List Nat` (a byte
  is a natural number below 256; no definition depends on the bound).
  `str` turns an ASCII literal into its bytes.
* A Go `int` is modelled by `Int`.  The only arithmetic on it is `target-1`,
  evaluated only after `1 <= target` has been checked, so it never wraps.
* A Go `error` is modelled by its message; `nil` is `none`.
* The casing library `github.com/rossmacarthur/cases` is not part of the
  repository: its ten functions are the fields of the parameter `Cases`.
* The Unicode tables behind `strings.ToLower` are not part of the repository:
  the non-ASCII path `strings.Map(unicode.ToLower, s)` is a parameter `U`.
  The same holds for `strconv.Quote`, the parameter `Q`.
* A run of the program is the record `Run`: the lines printed, the writes to
  standard error, the exit status and the number of lines read.  Standard
  input is the list of lines that the scanner delivers, then a clean end or a
  read error.  The usage text of package `flag` is one opaque write.
* `flag.Parse` is modelled for the three flags of `main`, after the functions
  `parseOne` and `failf` of package `flag` and its exit-on-error handling.
-/

namespace CaseChanger

/-- A Go string, as its sequence of bytes. -/
abbrev GoString := List Nat

/-- A Go error, as its message. -/
abbrev GoError := GoString

/-- The bytes of an ASCII literal. -/
def str (s : String) : GoString := s.toList.map Char.toNat

/-! ## Standard-library functions used by `main.go` -/

/-- Models `strconv.Itoa` / the verb `%d` on a non-negative value. -/
def natDigits (n : Nat) : GoString := (Nat.toDigits 10 n).map Char.toNat

/-- The verb `%d` of package `fmt` on an `int`. -/
def formatInt : Int → GoString
  | Int.ofNat n => natDigits n
  | Int.negSucc n => 45 :: natDigits (n + 1)

/-- Models `strings.HasPrefix(s, prefix)`. -/
def HasPrefix (s pre : GoString) : Bool := pre.isPrefixOf s

/-- The ASCII branch of `strings.ToLower`: `'A'..'Z'` are shifted by `'a'-'A'`. -/
def lowerByte (c : Nat) : Nat := if 65 ≤ c ∧ c ≤ 90 then c + 32 else c

/-- Models `strings.ToLower(s)`: when every byte is below `utf8.RuneSelf` the string is
lowercased bytewise, otherwise the result is `strings.Map(unicode.ToLower, s)`,
which is the parameter `U`. -/
def ToLower (U : GoString → GoString) (s : GoString) : GoString :=
  if s.all (fun c => decide (c < 128)) then s.map lowerByte else U s

/-- Models `strings.Index(s, sep)`: the position of the first occurrence of `sep` in
`s`; `none` stands for the result `-1`. -/
def Index : GoString → GoString → Option Nat
  | [], sep => if sep = [] then some 0 else none
  | c :: t, sep =>
    if sep.isPrefixOf (c :: t) then some 0 else (Index t sep).map (· + 1)

/-- The size in bytes of the first UTF-8 sequence of `s`, as computed by
`utf8.DecodeRuneInString`: `0` on the empty string, `1` on an invalid or
truncated sequence. -/
def runeSize : GoString → Nat
  | [] => 0
  | b0 :: rest =>
    let cont := fun (b : Nat) => decide (128 ≤ b ∧ b ≤ 191)
    let two := fun (lo hi : Nat) =>
      match rest with
      | b1 :: _ => if lo ≤ b1 ∧ b1 ≤ hi then 2 else 1
      | _ => 1
    let three := fun (lo hi : Nat) =>
      match rest with
      | b1 :: b2 :: _ => if lo ≤ b1 ∧ b1 ≤ hi ∧ cont b2 then 3 else 1
      | _ => 1
    let four := fun (lo hi : Nat) =>
      match rest with
      | b1 :: b2 :: b3 :: _ => if lo ≤ b1 ∧ b1 ≤ hi ∧ cont b2 ∧ cont b3 then 4 else 1
      | _ => 1
    if b0 < 194 then 1
    else if b0 ≤ 223 then two 128 191
    else if b0 = 224 then three 160 191
    else if b0 = 237 then three 128 159
    else if b0 ≤ 239 then three 128 191
    else if b0 = 240 then four 144 191
    else if b0 ≤ 243 then four 128 191
    else if b0 = 244 then four 128 143
    else 1

/-- The loop of `explode`: at most `k` leading UTF-8 sequences are cut off, the
rest of the string is the last element. -/
def explodeLoop : Nat → GoString → List GoString
  | 0, s => [s]
  | k + 1, s => s.take (runeSize s) :: explodeLoop k (s.drop (runeSize s))

/-- Models `utf8.RuneCountInString(s)`; the first argument bounds the number of steps
and is `len(s)` at the call site. -/
def runeCountLoop : Nat → GoString → Nat
  | 0, _ => 0
  | k + 1, s => if s = [] then 0 else 1 + runeCountLoop k (s.drop (runeSize s))

/-- Models `utf8.RuneCountInString(s)`. -/
def RuneCountInString (s : GoString) : Nat := runeCountLoop s.length s

/-- Models `explode(s, -1)` of package `strings`: `s` cut into its UTF-8 sequences. -/
def explode (s : GoString) : List GoString :=
  match RuneCountInString s with
  | 0 => []
  | n + 1 => explodeLoop n s

/-- The loop of `strings.Count` for a separator of length at least one: each
round finds the next occurrence and continues behind it.  The first argument
bounds the number of rounds and is `len(s)` at the call site. -/
def countLoop (sep : GoString) : Nat → GoString → Nat
  | 0, _ => 0
  | k + 1, s =>
    match Index s sep with
    | none => 0
    | some i => 1 + countLoop sep k (s.drop (i + sep.length))

/-- Models `strings.Count(s, sep)`: the number of non-overlapping occurrences
of `sep` in `s` (for a separator of one byte Go counts the byte, which is the
same number), and one more than the number of UTF-8 sequences when `sep` is
empty. -/
def Count (s sep : GoString) : Nat :=
  if sep = [] then RuneCountInString s + 1 else countLoop sep s.length s

/-- The loop `for i < n` of `genSplit` with `k = n - i` rounds left: it ends
early when `Index` finds nothing, and the rest of the string is the last
field. -/
def splitLoop (sep : GoString) : Nat → GoString → List GoString
  | 0, s => [s]
  | k + 1, s =>
    match Index s sep with
    | none => [s]
    | some m => s.take m :: splitLoop sep k (s.drop (m + sep.length))

/-- Models `strings.Split(s, sep)`, which is `genSplit(s, sep, 0, -1)`. -/
def Split (s sep : GoString) : List GoString :=
  if sep = [] then explode s
  else splitLoop sep (min (Count s sep + 1) (s.length + 1) - 1) s

/-- Models `strings.Join(elems, sep)`. -/
def Join : List GoString → GoString → GoString
  | [], _ => []
  | [a], _ => a
  | a :: b :: rest, sep => a ++ sep ++ Join (b :: rest) sep

/-- Models `slices.Sort` on a slice of `int`: the ascending rearrangement. -/
def slicesSort (xs : List Int) : List Int := xs.insertionSort (· ≤ ·)

/-! ## The casing library -/

/-- The ten functions of `github.com/rossmacarthur/cases` that `main.go` calls. -/
structure Cases where
  ToCamel : GoString → GoString
  ToPascal : GoString → GoString
  ToSnake : GoString → GoString
  ToScreamingSnake : GoString → GoString
  ToKebab : GoString → GoString
  ToScreamingKebab : GoString → GoString
  ToTrain : GoString → GoString
  ToTitle : GoString → GoString
  ToLower : GoString → GoString
  ToUpper : GoString → GoString

/-! ## `main.go` -/

/-- Models `type FormatTargets []int`. -/
abbrev FormatTargets := List Int

/-- Models `type Case int`. -/
structure Case where
  val : Int
  deriving DecidableEq, Repr

def Unknown : Case := ⟨0⟩
def CamelCase : Case := ⟨1⟩
def PascalCase : Case := ⟨2⟩
def SnakeCase : Case := ⟨3⟩
def ScreamingSnakeCase : Case := ⟨4⟩
def KebabCase : Case := ⟨5⟩
def ScreamingKebabCase : Case := ⟨6⟩
def TrainCase : Case := ⟨7⟩
def TitleCase : Case := ⟨8⟩
def LowerCase : Case := ⟨9⟩
def UpperCase : Case := ⟨10⟩

/-- Models `func availableCases() []Case`. -/
def availableCases : List Case :=
  [CamelCase, PascalCase, SnakeCase, ScreamingSnakeCase,
   KebabCase, ScreamingKebabCase, TrainCase,
   TitleCase, LowerCase, UpperCase]

/-- Models `func (c Case) String() string`. -/
def Case.String (c : Case) : GoString :=
  if c = Unknown then str "unknown"
  else if c = CamelCase then str "CamelCase"
  else if c = PascalCase then str "PascalCase"
  else if c = SnakeCase then str "SnakeCase"
  else if c = ScreamingSnakeCase then str "ScreamingSnakeCase"
  else if c = KebabCase then str "KebabCase"
  else if c = ScreamingKebabCase then str "ScreamingKebabCase"
  else if c = TrainCase then str "TrainCase"
  else if c = TitleCase then str "TitleCase"
  else if c = LowerCase then str "LowerCase"
  else if c = UpperCase then str "UpperCase"
  else str "Case(" ++ formatInt c.val ++ str ")"

/-- Models `func (c Case) Apply(text string) (string, error)`. -/
def Case.Apply (lib : Cases) (c : Case) (text : GoString) : GoString × Option GoError :=
  if c = CamelCase then (lib.ToCamel text, none)
  else if c = PascalCase then (lib.ToPascal text, none)
  else if c = SnakeCase then (lib.ToSnake text, none)
  else if c = ScreamingSnakeCase then (lib.ToScreamingSnake text, none)
  else if c = KebabCase then (lib.ToKebab text, none)
  else if c = ScreamingKebabCase then (lib.ToScreamingKebab text, none)
  else if c = TrainCase then (lib.ToTrain text, none)
  else if c = TitleCase then (lib.ToTitle text, none)
  else if c = LowerCase then (lib.ToLower text, none)
  else if c = UpperCase then (lib.ToUpper text, none)
  else ([], some (str "unknown case: " ++ c.String))

/-- Models `type CaseFlag struct { Value Case }`. -/
structure CaseFlag where
  Value : Case
  deriving DecidableEq, Repr

/-- The loop of `CaseFlag.Set` over the values `i, i+1, ...` with `k` values
left (`s` is already lowercased): the first value whose lowercased name equals
`s` or starts with `s` is returned. -/
def setLoop (U : GoString → GoString) (s : GoString) : Nat → Int → Option Case
  | 0, _ => none
  | k + 1, i =>
    let name := ToLower U (Case.String ⟨i⟩)
    if name = s ∨ HasPrefix name s then some ⟨i⟩ else setLoop U s k (i + 1)

/-- Models `func (cf *CaseFlag) Set(s string) error`: the flag after the call and the
error returned.  The loop `for i := Case(0); i <= UpperCase; i++` visits the
eleven values `0..10`. -/
def CaseFlag.Set (U : GoString → GoString) (cf : CaseFlag) (s : GoString) :
    CaseFlag × Option GoError :=
  let s := ToLower U s
  match setLoop U s 11 0 with
  | some i => ({ cf with Value := i }, none)
  | none => (cf, some (str "invalid case: " ++ s))

/-- Why the loops of `convert` stop early: a write outside the slice (a Go
panic), or the error that `convert` returns. -/
inductive Abort where
  | panic : Abort
  | err : GoError → Abort
  deriving DecidableEq, Repr

/-- The assignment `r[i] = v`: it panics when `i` is not an index of `r`. -/
def writeAt (r : List GoString) (i : Nat) (v : GoString) : Except Abort (List GoString) :=
  if i < r.length then .ok (r.set i v) else .error .panic

/-- The inner loop `for _, target := range fmtTargets` of `convert`, for the
field `w` at index `i`. -/
def convertInner (lib : Cases) (caseValue : Case) (n : Int) (length : Nat)
    (i : Nat) (w : GoString) : List Int → List GoString → Except Abort (List GoString)
  | [], r => .ok r
  | target :: rest, r =>
    if 1 ≤ target ∧ target ≤ (length : Int) ∧ (i : Int) = target - 1 then
      match Case.Apply lib caseValue w with
      | (_, some err) =>
        .error (.err (str "error at: line=" ++ formatInt n ++ str " col=" ++ formatInt target
          ++ str " word=" ++ w ++ str " case=" ++ caseValue.String ++ str ", " ++ err))
      | (c, none) =>
        match writeAt r i c with
        | .ok r1 => convertInner lib caseValue n length i w rest r1
        | .error e => .error e
    else
      match writeAt r i w with
      | .ok r1 => convertInner lib caseValue n length i w rest r1
      | .error e => .error e

/-- The outer loop `for i, w := range split` of `convert`, over the fields
still to visit, each with its index. -/
def convertOuter (lib : Cases) (caseValue : Case) (fmtTargets : FormatTargets) (n : Int)
    (length : Nat) : List (Nat × GoString) → List GoString → Except Abort (List GoString)
  | [], r => .ok r
  | (i, w) :: rest, r =>
    match convertInner lib caseValue n length i w fmtTargets r with
    | .ok r1 => convertOuter lib caseValue fmtTargets n length rest r1
    | .error e => .error e

/-- The closure `convert` of `main`, with the variables it captures as
parameters: the delimiter `*d`, the slice `fmtTargets` as it is when the
closure runs (after `slices.Sort`) and `caseFlag.Value`.  The result is `none`
when the call panics, and the returned pair otherwise. -/
def convert (lib : Cases) (d : GoString) (fmtTargets : FormatTargets) (caseValue : Case)
    (n : Int) (line : GoString) : Option (GoString × Option GoError) :=
  let split := Split line d
  let length := split.length
  let r := List.replicate length ([] : GoString)
  match convertOuter lib caseValue fmtTargets n length split.enum r with
  | .ok r1 => some (Join r1 d, none)
  | .error (.err e) => some ([], some e)
  | .error .panic => none

/-- How `strconv.Atoi` fails: `strconv.ErrSyntax` or `strconv.ErrRange`. -/
inductive AtoiFailure where
  | badSyntax : AtoiFailure
  | outOfRange : AtoiFailure
  deriving DecidableEq, Repr

/-- The loop of `strconv.ParseUint(s, 10, 64)` with the value `n` read so far:
a byte that is not a decimal digit is a syntax error, a value above
`1<<64 - 1` is a range error, whichever comes first. -/
def parseUintLoop : Nat → GoString → Except AtoiFailure Nat
  | n, [] => .ok n
  | n, c :: t =>
    if 48 ≤ c ∧ c ≤ 57 then
      if 1844674407370955162 ≤ n then .error .outOfRange
      else if 18446744073709551615 < n * 10 + (c - 48) then .error .outOfRange
      else parseUintLoop (n * 10 + (c - 48)) t
    else .error .badSyntax

/-- Models `strconv.Atoi(s)` on a 64-bit platform, by its general path
`ParseInt(s, 10, 0)` (the fast path for short strings returns the same): an
optional sign, then at least one decimal digit and nothing else; the value
must fit an `int`. -/
def Atoi (s : GoString) : Int × Option AtoiFailure :=
  match s with
  | [] => (0, some .badSyntax)
  | c :: t =>
    let neg := decide (c = 45)
    let digits := if c = 43 ∨ c = 45 then t else c :: t
    if digits = [] then (0, some .badSyntax)
    else
      match parseUintLoop 0 digits with
      | .error .badSyntax => (0, some .badSyntax)
      | .error .outOfRange =>
        if neg then (-9223372036854775808, some .outOfRange)
        else (9223372036854775807, some .outOfRange)
      | .ok un =>
        if neg = false ∧ 9223372036854775808 ≤ un then (9223372036854775807, some .outOfRange)
        else if neg = true ∧ 9223372036854775808 < un then
          (-9223372036854775808, some .outOfRange)
        else (if neg then -(un : Int) else (un : Int), none)

/-- The message of the `*strconv.NumError` that `Atoi` returns; `Q` is
`strconv.Quote`, whose Unicode tables are not part of the repository. -/
def atoiErrorMessage (Q : GoString → GoString) (s : GoString) : AtoiFailure → GoError
  | .badSyntax => str "strconv.Atoi: parsing " ++ Q s ++ str ": invalid syntax"
  | .outOfRange => str "strconv.Atoi: parsing " ++ Q s ++ str ": value out of range"

/-- Models `func (f *FormatTargets) Set(value string) error`: the slice after
the call and the error returned. -/
def FormatTargets.Set (Q : GoString → GoString) (f : FormatTargets) (value : GoString) :
    FormatTargets × Option GoError :=
  match Atoi value with
  | (_, some e) => (f, some (atoiErrorMessage Q value e))
  | (num, none) => (f ++ [num], none)

/-- One write to standard error: the usage text of package `flag`
(`flag.Usage()`), one `fmt.Fprintln(os.Stderr, msg)`, or the report of a
run-time panic. -/
inductive Stderr where
  | usage : Stderr
  | println : GoString → Stderr
  | panic : Stderr
  deriving DecidableEq, Repr

/-- Standard input as the scanner delivers it: the lines, then a clean end of
input (`err = none`) or the error that `scanner.Err()` reports. -/
structure Stdin where
  lines : List GoString
  err : Option GoError
  deriving DecidableEq, Repr

/-- What a run of the program does: the lines printed with `fmt.Println`, the
writes to standard error, the exit status and the number of lines taken from
the scanner. -/
structure Run where
  stdout : List GoString
  stderr : List Stderr
  status : Int
  linesRead : Nat
  deriving DecidableEq, Repr

/-- The text that `main` builds in `sb` when the style is `Unknown`: a heading
line, then a tab, the name and a newline for each of `availableCases()`. -/
def availableListing : GoString :=
  availableCases.foldl (fun sb c => sb ++ [9] ++ c.String ++ [10])
    (str "Available values for " ++ [39] ++ str "case" ++ [39] ++ str " is ..." ++ [10])

/-- The loop `for scanner.Scan()` of `main` with the lines still to come:
`current` is the number of the last line handled; a failing line ends the
run with status 1, a read error after the last line as well. -/
def scanLoop (lib : Cases) (d : GoString) (fmtTargets : FormatTargets) (caseValue : Case)
    (scanErr : Option GoError) : Int → List GoString → Run
  | _, [] =>
    match scanErr with
    | none => ⟨[], [], 0, 0⟩
    | some e => ⟨[], [.println (str "reading standard input: " ++ e)], 1, 0⟩
  | current, line :: rest =>
    let lineNum := current + 1
    match convert lib d fmtTargets caseValue lineNum line with
    | none => ⟨[], [.panic], 2, 1⟩
    | some (_, some err) => ⟨[], [.println err], 1, 1⟩
    | some (result, none) =>
      let r := scanLoop lib d fmtTargets caseValue scanErr lineNum rest
      ⟨result :: r.stdout, r.stderr, r.status, r.linesRead + 1⟩

/-- The body of `main` after `flag.Parse()`, from the values of the three
flags: the configuration check, then `slices.Sort` and the line loop. -/
def mainBody (lib : Cases) (d : GoString) (fmtTargets : FormatTargets) (caseFlag : CaseFlag)
    (stdin : Stdin) : Run :=
  if d = [] ∨ fmtTargets.length = 0 ∨ caseFlag.Value = Unknown then
    ⟨[], Stderr.usage :: (if caseFlag.Value = Unknown then [Stderr.println availableListing]
      else []), 1, 0⟩
  else
    scanLoop lib d (slicesSort fmtTargets) caseFlag.Value stdin.err 0 stdin.lines

/-- The three flag variables of `main`. -/
structure Flags where
  d : GoString
  fmtTargets : FormatTargets
  caseFlag : CaseFlag
  deriving DecidableEq, Repr

/-- The search for `=` in a flag name from its second byte on: the part before
it and the part behind it. -/
def cutAtEquals : GoString → Option (GoString × GoString)
  | [] => none
  | c :: t => if c = 61 then some ([], t) else (cutAtEquals t).map (fun p => (c :: p.1, p.2))

/-- The lookup `f.formal[name]`: the three flags that `main` defines. -/
def flagDefined (name : GoString) : Bool :=
  name = str "delim" || name = str "targets" || name = str "case"

/-- The call `flag.Value.Set(value)` for the flag called `name`; `none` when
no such flag is defined.  The string flag `-delim` accepts every value. -/
def setFlag (U Q : GoString → GoString) (fl : Flags) (name value : GoString) :
    Option (Flags × Option GoError) :=
  if name = str "delim" then some ({ fl with d := value }, none)
  else if name = str "targets" then
    some ({ fl with fmtTargets := (FormatTargets.Set Q fl.fmtTargets value).1 },
      (FormatTargets.Set Q fl.fmtTargets value).2)
  else if name = str "case" then
    some ({ fl with caseFlag := (CaseFlag.Set U fl.caseFlag value).1 },
      (CaseFlag.Set U fl.caseFlag value).2)
  else none

/-- The value of a flag that needs one, and the arguments left: the value
is what follows `=` in the flag when there is one, or else the next argument;
`none` when there is neither. -/
def takeValue : Option GoString → List GoString → Option (GoString × List GoString)
  | some v, rest => some (v, rest)
  | none, v :: rest1 => some (v, rest1)
  | none, [] => none

/-- What one call of `parseOne` of package `flag` returns: a flag was seen and
set (`true, nil`), with the flags and the arguments left; the flags are over
(`false, nil`); or an error (`false, err`), with what was written to standard
error and whether the error is `flag.ErrHelp`. -/
inductive ParseStep where
  | seen : Flags → List GoString → ParseStep
  | done : ParseStep
  | failed : List Stderr → Bool → ParseStep
  deriving DecidableEq, Repr

/-- Models `func (f *FlagSet) parseOne() (bool, error)` on the three flags of
`main`, none of which is a boolean flag: an argument that is shorter than two
bytes or does not start with `-`, and the argument `--`, end the flags; the
name is what follows one or two `-`, up to the first `=` behind its first
byte; the value is what follows that `=`, or else the next argument. -/
def parseOne (U Q : GoString → GoString) (fl : Flags) : List GoString → ParseStep
  | [] => .done
  | s :: rest =>
    if s.length < 2 ∨ s.head? ≠ some 45 then .done
    else if s = [45, 45] then .done
    else
      let body := if s.get? 1 = some 45 then s.drop 2 else s.drop 1
      if body = [] ∨ body.head? = some 45 ∨ body.head? = some 61 then
        .failed [.println (str "bad flag syntax: " ++ s), .usage] false
      else
        let name := match cutAtEquals body.tail with
          | some (a, _) => body.take 1 ++ a
          | none => body
        let given := (cutAtEquals body.tail).map Prod.snd
        if flagDefined name = false then
          if name = str "help" ∨ name = str "h" then .failed [.usage] true
          else .failed [.println (str "flag provided but not defined: -" ++ name), .usage] false
        else
          match takeValue given rest with
          | none => .failed [.println (str "flag needs an argument: -" ++ name), .usage] false
          | some (value, args) =>
            match setFlag U Q fl name value with
            | none => .done
            | some (_, some err) =>
              .failed [.println (str "invalid value " ++ Q value ++ str " for flag -" ++ name
                ++ str ": " ++ err), .usage] false
            | some (fl1, none) => .seen fl1 args

/-- Models `flag.Parse()` on the command line flags of `main`
(`flag.CommandLine`, which exits on error): the loop over `parseOne`, with a
bound on the number of rounds that is `len(args)` at the call site.  The result
is the flags, or what was written to standard error and the exit status:
status 0 after `-h` or `-help`, status 2 after an error. -/
def flagParse (U Q : GoString → GoString) : Nat → Flags → List GoString →
    Except (List Stderr × Int) Flags
  | 0, fl, _ => .ok fl
  | k + 1, fl, args =>
    match parseOne U Q fl args with
    | .seen fl1 args1 => flagParse U Q k fl1 args1
    | .done => .ok fl
    | .failed written help => .error (written, if help then 0 else 2)

/-- Models `func main()`: the flags start as `-delim ":"`, no target and the
style `Unknown`; `args` is `os.Args[1:]`. -/
def main (lib : Cases) (U Q : GoString → GoString) (args : List GoString) (stdin : Stdin) :
    Run :=
  match flagParse U Q args.length ⟨str ":", [], ⟨Unknown⟩⟩ args with
  | .error (errs, status) => ⟨[], errs, status, 0⟩
  | .ok fl => mainBody lib fl.d fl.fmtTargets fl.caseFlag stdin

/-! ## A stand-in for the casing library

The examples are run with `asciiCases`, a stand-in for the casing library on
single ASCII words: its upper and lower functions change the letter case
bytewise, its kebab and snake functions put a separator before every capital
letter but the first and lowercase it, the others return their argument. -/

/-- The capital of an ASCII letter. -/
def upperByte (c : Nat) : Nat := if 97 ≤ c ∧ c ≤ 122 then c - 32 else c

/-- Puts `sepByte` before every capital letter and lowercases the letter. -/
def breakWords (sepByte : Nat) : GoString → GoString
  | [] => []
  | c :: t => (if 65 ≤ c ∧ c ≤ 90 then [sepByte, c + 32] else [c]) ++ breakWords sepByte t

/-- Lowercases the first byte and breaks the rest into words. -/
def separated (sepByte : Nat) : GoString → GoString
  | [] => []
  | c :: t => lowerByte c :: breakWords sepByte t

/-- The stand-in library instance for single ASCII words. -/
def asciiCases : Cases where
  ToCamel := id
  ToPascal := id
  ToSnake := separated 95
  ToScreamingSnake := id
  ToKebab := separated 45
  ToScreamingKebab := id
  ToTrain := id
  ToTitle := id
  ToLower := List.map lowerByte
  ToUpper := List.map upperByte

/-- A stand-in for `strconv.Quote` on plain ASCII words: the word between
double quotes. -/
def asciiQuote (s : GoString) : GoString := [34] ++ s ++ [34]

/-! ## What the specification says, in its own words -/

/-- The names of the ten known styles whose lowercase form starts with the
lowercase form of `s`: the styles that `s` matches as a name or as the
beginning of a name. -/
def matchingStyles (U : GoString → GoString) (s : GoString) : List Case :=
  availableCases.filter (fun c => HasPrefix (ToLower U c.String) (ToLower U s))

/-- The rule of the specification for one field: the field at the 1-based
position `i + 1` is replaced by the style's result when that position is a
member of the target list, and is left unchanged otherwise. -/
def membershipRule (lib : Cases) (c : Case) (T : FormatTargets) (p : Nat × GoString) :
    GoString :=
  if ((p.1 : Int) + 1) ∈ T then (Case.Apply lib c p.2).1 else p.2

/-- The single-position rule: the field at the 1-based position `m` is
replaced by the style's result when `1 ≤ m ≤ k`, where `k` is the number of
fields; every other field, and every field when `m` is out of range, is
unchanged. -/
def singlePositionRule (lib : Cases) (c : Case) (m : Int) (fields : List GoString) :
    List GoString :=
  if 1 ≤ m ∧ m ≤ (fields.length : Int) then
    fields.set (m - 1).toNat ((Case.Apply lib c (fields.getD (m - 1).toNat [])).1)
  else fields

/-- Whether a call of `convert` returned without error. -/
def succeeded : Option (GoString × Option GoError) → Bool
  | some (_, none) => true
  | _ => false

/-- The string that a call of `convert` returned. -/
def outputOf : Option (GoString × Option GoError) → GoString
  | some (out, _) => out
  | none => []

/-- The results of `convert` on the lines of the input, the line at index `k`
(counted from 0) being passed the line number `k + 1`. -/
def lineResults (lib : Cases) (d : GoString) (fmtTargets : FormatTargets) (caseValue : Case)
    (lines : List GoString) : List (Option (GoString × Option GoError)) :=
  lines.enum.map (fun p => convert lib d fmtTargets caseValue ((p.1 : Int) + 1) p.2)

/-- What the line loop writes to standard error for the given results of
`convert`, in the words of the specification: the error of the first failing
line, and nothing when no line fails. -/
def stderrOf (results : List (Option (GoString × Option GoError))) : List Stderr :=
  match results.dropWhile succeeded with
  | some (_, some e) :: _ => [Stderr.println e]
  | none :: _ => [Stderr.panic]
  | _ => []

/-! ## Auxiliary notions of the proofs -/

/-- The flags and the arguments left after `j` rounds of `flag.Parse` in each
of which `parseOne` has seen and set a flag; `none` when one of these rounds
ends the flags or fails. -/
def stateAfter (U Q : GoString → GoString) : Nat → Flags → List GoString →
    Option (Flags × List GoString)
  | 0, fl, args => some (fl, args)
  | j + 1, fl, args =>
    match parseOne U Q fl args with
    | .seen fl1 args1 => stateAfter U Q j fl1 args1
    | _ => none

/-- What `strings.Split` promises about its result for a non-empty separator
`d`: there is at least one field, the separator does not occur in the last
field, and in every other field followed by the separator it occurs only at
the very end (it does not occur in the field followed by the separator
without its last byte). -/
def cleanFields (d : GoString) : List GoString → Bool
  | [] => false
  | [a] => (Index a d).isNone
  | a :: b :: rest => (Index (a ++ d.dropLast) d).isNone && cleanFields d (b :: rest)

/-- What the loops of `convert` leave in `r[i]` when the last element of
`fmtTargets` is `m` and the style returns no error: the style's result when
`m` is in range and is the 1-based position of the field, the field itself
otherwise. -/
def lastTargetRule (lib : Cases) (c : Case) (length : Nat) (m : Int) (p : Nat × GoString) :
    GoString :=
  if 1 ≤ m ∧ m ≤ (length : Int) ∧ (p.1 : Int) = m - 1 then (Case.Apply lib c p.2).1 else p.2

/-! ## Case styles: `Apply` and `Set` -/

theorem mem_availableCases (c : Case) :
    c ∈ availableCases ↔
      c = CamelCase ∨ c = PascalCase ∨ c = SnakeCase ∨ c = ScreamingSnakeCase ∨
      c = KebabCase ∨ c = ScreamingKebabCase ∨ c = TrainCase ∨ c = TitleCase ∨
      c = LowerCase ∨ c = UpperCase := by
  simp [availableCases]

/-- For each of the ten styles `Apply` returns no error. -/
theorem Apply_snd_of_mem (lib : Cases) (c : Case) (text : GoString)
    (hc : c ∈ availableCases) : (Case.Apply lib c text).2 = none := by
  rw [mem_availableCases] at hc
  rcases hc with h | h | h | h | h | h | h | h | h | h <;> subst h <;> rfl

/-- Outside the ten styles `Apply` returns the empty string and the error. -/
theorem Apply_of_not_mem (lib : Cases) (c : Case) (text : GoString)
    (hc : c ∉ availableCases) :
    Case.Apply lib c text = ([], some (str "unknown case: " ++ c.String)) := by
  rw [mem_availableCases] at hc
  simp only [not_or] at hc
  obtain ⟨h1, h2, h3, h4, h5, h6, h7, h8, h9, h10⟩ := hc
  simp [Case.Apply, h1, h2, h3, h4, h5, h6, h7, h8, h9, h10]

/-- C10: `Case.Apply` returns an error exactly when the value is not one of the
ten styles; then the returned string is empty and the message is
"unknown case: " followed by the name of the value; for each of the ten styles
the result is the value of the library function mapped to it, with no error. -/
theorem C10_Apply_fails_exactly_on_non_styles (lib : Cases) (c : Case) (text : GoString) :
    ((Case.Apply lib c text).2 ≠ none ↔ c ∉ availableCases) ∧
    (c ∉ availableCases →
      Case.Apply lib c text = ([], some (str "unknown case: " ++ c.String))) ∧
    Case.Apply lib CamelCase text = (lib.ToCamel text, none) ∧
    Case.Apply lib PascalCase text = (lib.ToPascal text, none) ∧
    Case.Apply lib SnakeCase text = (lib.ToSnake text, none) ∧
    Case.Apply lib ScreamingSnakeCase text = (lib.ToScreamingSnake text, none) ∧
    Case.Apply lib KebabCase text = (lib.ToKebab text, none) ∧
    Case.Apply lib ScreamingKebabCase text = (lib.ToScreamingKebab text, none) ∧
    Case.Apply lib TrainCase text = (lib.ToTrain text, none) ∧
    Case.Apply lib TitleCase text = (lib.ToTitle text, none) ∧
    Case.Apply lib LowerCase text = (lib.ToLower text, none) ∧
    Case.Apply lib UpperCase text = (lib.ToUpper text, none) := by
  refine ⟨?_, Apply_of_not_mem lib c text, rfl, rfl, rfl, rfl, rfl, rfl, rfl, rfl, rfl, rfl⟩
  constructor
  · intro h hc
    exact h (Apply_snd_of_mem lib c text hc)
  · intro hc
    rw [Apply_of_not_mem lib c text hc]
    simp

/-- C7: a string that equals the name of one of the ten styles up to letter
case (its lowercase form is the lowercase form of the name) is accepted by
`CaseFlag.Set`, which returns no error and sets `Value` to that style. -/
theorem C7_exact_name_resolves (U : GoString → GoString) (cf : CaseFlag) (c : Case)
    (s : GoString) (hc : c ∈ availableCases)
    (hs : ToLower U s = ToLower U c.String) :
    CaseFlag.Set U cf s = ({ cf with Value := c }, none) := by
  rw [mem_availableCases] at hc
  unfold CaseFlag.Set
  simp only [hs]
  rcases hc with h | h | h | h | h | h | h | h | h | h <;> subst h <;> rfl

/-- C7, at the spelling "KEBABCASE" of the style `KebabCase`. -/
theorem C7_exact_name_resolves_witness :
    CaseFlag.Set id ⟨Unknown⟩ (str "KEBABCASE") = (⟨KebabCase⟩, none) :=
  C7_exact_name_resolves id ⟨Unknown⟩ KebabCase (str "KEBABCASE") (by decide) (by decide)

/-- C8: the string "u" is the beginning of the lowercase name of exactly one of
the ten styles, `UpperCase`, yet `CaseFlag.Set` resolves it to `Unknown`:
the scan starts at the value `Unknown`, whose name "unknown" also begins
with "u". -/
theorem C8_prefix_u_resolves_to_Unknown (U : GoString → GoString) (cf : CaseFlag) :
    str "u" ≠ [] ∧ matchingStyles U (str "u") = [UpperCase] ∧
    CaseFlag.Set U cf (str "u") = ({ cf with Value := Unknown }, none) ∧
    Unknown ≠ UpperCase :=
  ⟨by decide, rfl, rfl, by decide⟩

/-- C9: the string "unknown" is not the beginning of the name of any of the
ten styles, yet `CaseFlag.Set` returns no error on it and sets `Value` to
`Unknown`. -/
theorem C9_unknown_is_accepted (U : GoString → GoString) (cf : CaseFlag) :
    matchingStyles U (str "unknown") = [] ∧
    CaseFlag.Set U cf (str "unknown") = ({ cf with Value := Unknown }, none) :=
  ⟨rfl, rfl⟩

/-! ## `strings.Index`, `strings.Split` and `strings.Join` -/

theorem Index_none_of_length_lt (d : GoString) :
    ∀ x : GoString, x.length < d.length → Index x d = none := by
  intro x
  induction x with
  | nil =>
    intro h
    have hd : d ≠ [] := by
      intro h0
      simp [h0] at h
    simp [Index, hd]
  | cons c t ih =>
    intro h
    have hp : d.isPrefixOf (c :: t) = false := by
      rw [Bool.eq_false_iff]
      intro hp
      have := (List.isPrefixOf_iff_prefix.mp hp).length_le
      omega
    have ht := ih (by simp at h; omega)
    simp [Index, hp, ht]

theorem Index_none_of_append (d : GoString) :
    ∀ x y : GoString, Index (x ++ y) d = none → Index x d = none := by
  intro x
  induction x with
  | nil =>
    intro y h
    cases y with
    | nil => simpa using h
    | cons c t =>
      have hd : d ≠ [] := by
        intro h0
        simp [Index, h0] at h
      simp [Index, hd]
  | cons c t ih =>
    intro y h
    simp only [List.cons_append, Index] at h
    split at h
    · simp at h
    · rename_i hp
      have ht : Index t d = none := by
        apply ih y
        simpa using h
      have hp2 : d.isPrefixOf (c :: t) = false := by
        rw [Bool.eq_false_iff]
        intro hq
        apply hp
        rw [List.isPrefixOf_iff_prefix] at hq ⊢
        exact hq.trans (List.prefix_append (c :: t) y)
      simp [Index, hp2, ht]

/-- Where `Index` finds the separator, the string is a field, the separator
and a rest, and the separator does not begin earlier. -/
theorem Index_some_split (d : GoString) (hd : d ≠ []) :
    ∀ (s : GoString) (m : Nat), Index s d = some m →
      ∃ f rest, s = f ++ d ++ rest ∧ f.length = m ∧ Index (f ++ d.dropLast) d = none := by
  intro s
  induction s with
  | nil =>
    intro m h
    simp [Index, hd] at h
  | cons c t ih =>
    intro m h
    simp only [Index] at h
    split at h
    · rename_i hp
      obtain ⟨rest, hrest⟩ := List.isPrefixOf_iff_prefix.mp hp
      refine ⟨[], rest, by simpa using hrest.symm, by simpa using h, ?_⟩
      apply Index_none_of_length_lt
      have : 0 < d.length := List.length_pos.mpr hd
      simp
      omega
    · rename_i hp
      cases hi : Index t d with
      | none => simp [hi] at h
      | some m1 =>
        simp [hi] at h
        obtain ⟨f, rest, hs, hlen, hclean⟩ := ih m1 hi
        refine ⟨c :: f, rest, by simp [hs], by simp [hlen, h], ?_⟩
        have hp2 : d.isPrefixOf (c :: (f ++ d.dropLast)) = false := by
          rw [Bool.eq_false_iff]
          intro hq
          apply hp
          rw [List.isPrefixOf_iff_prefix] at hq ⊢
          have hsplit : c :: t = (c :: (f ++ d.dropLast)) ++ ([d.getLast hd] ++ rest) := by
            rw [hs]
            conv_lhs => rw [← List.dropLast_append_getLast hd]
            simp
          rw [hsplit]
          exact hq.trans (List.prefix_append _ _)
        simp [Index, hp2, hclean]

/-- A field in which, followed by the separator, the separator begins only at
the end: `Index` finds the separator right behind the field. -/
theorem Index_clean_append (d : GoString) (hd : d ≠ []) (rest : GoString) :
    ∀ f : GoString, Index (f ++ d.dropLast) d = none →
      Index (f ++ d ++ rest) d = some f.length := by
  intro f
  induction f with
  | nil =>
    intro _
    obtain ⟨c, t, hct⟩ := List.exists_cons_of_ne_nil hd
    have hp : d.isPrefixOf (d ++ rest) = true :=
      List.isPrefixOf_iff_prefix.mpr (List.prefix_append d rest)
    have hne : d ++ rest = c :: (t ++ rest) := by simp [hct]
    simp only [List.nil_append, List.length_nil]
    rw [hne] at hp ⊢
    simp [Index, hp]
  | cons c t ih =>
    intro h
    simp only [List.cons_append, Index] at h
    split at h
    · simp at h
    · rename_i hp
      have ht : Index (t ++ d.dropLast) d = none := by simpa using h
      have hp2 : d.isPrefixOf (c :: (t ++ d ++ rest)) = false := by
        rw [Bool.eq_false_iff]
        intro hq
        apply hp
        rw [List.isPrefixOf_iff_prefix] at hq ⊢
        have hsplit : c :: (t ++ d ++ rest) =
            (c :: (t ++ d.dropLast)) ++ ([d.getLast hd] ++ rest) := by
          conv_lhs => rw [← List.dropLast_append_getLast hd]
          simp
        rw [hsplit] at hq
        refine List.prefix_of_prefix_length_le hq (List.prefix_append _ _) ?_
        have : 0 < d.length := List.length_pos.mpr hd
        simp
        omega
      simp only [List.cons_append, List.append_assoc, Index, List.length_cons]
      simp only [List.append_assoc] at hp2 ih
      simp [hp2, ih ht]

theorem Join_cons_of_ne_nil (a : GoString) (l : List GoString) (d : GoString)
    (hl : l ≠ []) : Join (a :: l) d = a ++ d ++ Join l d := by
  cases l with
  | nil => exact absurd rfl hl
  | cons b rest => rfl

theorem cleanFields_ne_nil (d : GoString) (fs : List GoString)
    (h : cleanFields d fs = true) : fs ≠ [] := by
  intro h0
  simp [h0, cleanFields] at h

/-- Each separator takes at least one byte of the joined string. -/
theorem length_le_Join (d : GoString) (hd : d ≠ []) :
    ∀ fs : List GoString, fs.length ≤ (Join fs d).length + 1 := by
  intro fs
  induction fs with
  | nil => simp
  | cons a l ih =>
    cases l with
    | nil => simp
    | cons b rest =>
      have : 0 < d.length := List.length_pos.mpr hd
      rw [Join_cons_of_ne_nil a (b :: rest) d (by simp)]
      simp only [List.length_cons, List.length_append] at ih ⊢
      omega

/-- Splitting a joined list of clean fields gives the fields back, when the
loop is given enough rounds. -/
theorem splitLoop_Join (d : GoString) (hd : d ≠ []) :
    ∀ (fs : List GoString) (k : Nat), cleanFields d fs = true → fs.length ≤ k + 1 →
      splitLoop d k (Join fs d) = fs := by
  intro fs
  induction fs with
  | nil =>
    intro k h
    simp [cleanFields] at h
  | cons a l ih =>
    intro k h hk
    cases l with
    | nil =>
      have ha : Index a d = none := by simpa [cleanFields] using h
      cases k with
      | zero => rfl
      | succ k => simp [Join, splitLoop, ha]
    | cons b rest =>
      simp only [cleanFields, Bool.and_eq_true, Option.isNone_iff_eq_none] at h
      obtain ⟨ha, hrest⟩ := h
      cases k with
      | zero => simp at hk
      | succ k =>
        have hidx := Index_clean_append d hd (Join (b :: rest) d) a ha
        have hjoin : Join (a :: b :: rest) d = a ++ d ++ Join (b :: rest) d := rfl
        rw [hjoin]
        simp only [splitLoop, hidx]
        have htake : List.take a.length (a ++ d ++ Join (b :: rest) d) = a := by
          simp [List.append_assoc]
        have hdrop : List.drop (a.length + d.length) (a ++ d ++ Join (b :: rest) d)
            = Join (b :: rest) d := by
          rw [← List.length_append]
          exact List.drop_left _ _
        rw [htake, hdrop, ih k hrest (by simpa using hk)]

/-- Counting the separators of a joined list of clean fields gives one less
than the number of fields, when the loop is given enough rounds. -/
theorem countLoop_Join (d : GoString) (hd : d ≠ []) :
    ∀ (fs : List GoString) (k : Nat), cleanFields d fs = true → fs.length ≤ k + 1 →
      countLoop d k (Join fs d) = fs.length - 1 := by
  intro fs
  induction fs with
  | nil =>
    intro k h
    simp [cleanFields] at h
  | cons a l ih =>
    intro k h hk
    cases l with
    | nil =>
      have ha : Index a d = none := by simpa [cleanFields] using h
      cases k with
      | zero => rfl
      | succ k => simp [Join, countLoop, ha]
    | cons b rest =>
      simp only [cleanFields, Bool.and_eq_true, Option.isNone_iff_eq_none] at h
      obtain ⟨ha, hrest⟩ := h
      cases k with
      | zero => simp at hk
      | succ k =>
        have hidx := Index_clean_append d hd (Join (b :: rest) d) a ha
        have hjoin : Join (a :: b :: rest) d = a ++ d ++ Join (b :: rest) d := rfl
        rw [hjoin]
        simp only [countLoop, hidx]
        have hdrop : List.drop (a.length + d.length) (a ++ d ++ Join (b :: rest) d)
            = Join (b :: rest) d := by
          rw [← List.length_append]
          exact List.drop_left _ _
        rw [hdrop, ih k hrest (by simpa using hk)]
        simp
        omega

/-- Splitting after joining: a list of clean fields is recovered. -/
theorem Split_Join (d : GoString) (hd : d ≠ []) (fs : List GoString)
    (h : cleanFields d fs = true) : Split (Join fs d) d = fs := by
  have hlen := length_le_Join d hd fs
  have hpos : 0 < fs.length := List.length_pos.mpr (cleanFields_ne_nil d fs h)
  unfold Split Count
  simp only [hd, if_false]
  rw [countLoop_Join d hd fs _ h hlen]
  apply splitLoop_Join d hd fs _ h
  omega

/-- Every string is the join of a list of clean fields. -/
theorem exists_cleanFields (d : GoString) (hd : d ≠ []) :
    ∀ (k : Nat) (s : GoString), s.length ≤ k →
      ∃ fs, cleanFields d fs = true ∧ Join fs d = s := by
  intro k
  induction k with
  | zero =>
    intro s hs
    have : s = [] := List.length_eq_zero.mp (by omega)
    subst this
    exact ⟨[[]], by simp [cleanFields, Index, hd], rfl⟩
  | succ k ih =>
    intro s hs
    cases hi : Index s d with
    | none => exact ⟨[s], by simp [cleanFields, hi], rfl⟩
    | some m =>
      obtain ⟨f, rest, hsplit, _, hclean⟩ := Index_some_split d hd s m hi
      have hdpos : 0 < d.length := List.length_pos.mpr hd
      have hrest : rest.length ≤ k := by
        have := congrArg List.length hsplit
        simp at this
        omega
      obtain ⟨fs, hfs, hjoin⟩ := ih rest hrest
      refine ⟨f :: fs, ?_, ?_⟩
      · obtain ⟨b, l, hbl⟩ := List.exists_cons_of_ne_nil (cleanFields_ne_nil d fs hfs)
        subst hbl
        simp [cleanFields, hclean, hfs]
      · rw [Join_cons_of_ne_nil f fs d (cleanFields_ne_nil d fs hfs), hjoin, hsplit]

/-- The fields that `Split` returns for a non-empty separator are clean. -/
theorem cleanFields_Split (d : GoString) (hd : d ≠ []) (s : GoString) :
    cleanFields d (Split s d) = true := by
  obtain ⟨fs, hfs, hjoin⟩ := exists_cleanFields d hd s.length s le_rfl
  rw [← hjoin, Split_Join d hd fs hfs]
  exact hfs

/-- Joining after splitting gives the string back. -/
theorem Join_Split (d : GoString) (hd : d ≠ []) (s : GoString) :
    Join (Split s d) d = s := by
  obtain ⟨fs, hfs, hjoin⟩ := exists_cleanFields d hd s.length s le_rfl
  rw [← hjoin, Split_Join d hd fs hfs]

theorem Split_ne_nil (d : GoString) (hd : d ≠ []) (s : GoString) : Split s d ≠ [] :=
  cleanFields_ne_nil d _ (cleanFields_Split d hd s)

/-! ## The loops of `convert` -/

theorem set_length_append (pre : List GoString) (a g : GoString) (l : List GoString) :
    (pre ++ a :: l).set pre.length g = pre ++ g :: l := by
  induction pre with
  | nil => rfl
  | cons x pre ih => simp [ih]

/-- One round of the inner loop, when the style returns no error. -/
theorem convertInner_cons (lib : Cases) (c : Case) (n : Int) (length i : Nat) (w : GoString)
    (hA : (Case.Apply lib c w).2 = none) (t : Int) (rest : List Int) (r : List GoString)
    (hi : i < r.length) :
    convertInner lib c n length i w (t :: rest) r =
      convertInner lib c n length i w rest (r.set i (lastTargetRule lib c length t (i, w))) := by
  unfold lastTargetRule
  generalize hp : Case.Apply lib c w = p at hA ⊢
  obtain ⟨x, e⟩ := p
  simp only at hA
  subst hA
  by_cases hcond : 1 ≤ t ∧ t ≤ (length : Int) ∧ (i : Int) = t - 1
  · simp [convertInner, hcond, hp, writeAt, hi]
  · simp only [convertInner, hcond, if_false, writeAt, hi, if_true]

/-- The inner loop, when the style returns no error: only the last target
decides what is left in `r[i]`. -/
theorem convertInner_ok (lib : Cases) (c : Case) (n : Int) (length i : Nat) (w : GoString)
    (hA : (Case.Apply lib c w).2 = none) :
    ∀ (ts : List Int) (m : Int) (r : List GoString), ts.getLast? = some m → i < r.length →
      convertInner lib c n length i w ts r = .ok (r.set i (lastTargetRule lib c length m (i, w))) := by
  intro ts
  induction ts with
  | nil =>
    intro m r h
    simp at h
  | cons t rest ih =>
    intro m r h hi
    rw [convertInner_cons lib c n length i w hA t rest r hi]
    cases rest with
    | nil =>
      have : t = m := by simpa using h
      subst this
      rfl
    | cons t1 rest1 =>
      have h1 : (t1 :: rest1).getLast? = some m := by
        rw [List.getLast?_cons_cons] at h
        exact h
      rw [ih m _ h1 (by simpa using hi)]
      simp

/-- The outer loop, when the style never returns an error and there is at
least one target: every field is decided by the last target. -/
theorem convertOuter_ok (lib : Cases) (c : Case) (n : Int) (length : Nat)
    (hA : ∀ w, (Case.Apply lib c w).2 = none) (ts : List Int) (m : Int)
    (hm : ts.getLast? = some m) :
    ∀ (ws : List GoString) (k : Nat) (pre : List GoString), pre.length = k →
      convertOuter lib c ts n length (List.enumFrom k ws) (pre ++ List.replicate ws.length [])
        = .ok (pre ++ (List.enumFrom k ws).map (lastTargetRule lib c length m)) := by
  intro ws
  induction ws with
  | nil =>
    intro k pre _
    simp [convertOuter]
  | cons w ws ih =>
    intro k pre hk
    subst hk
    simp only [List.enumFrom_cons, convertOuter, List.length_cons, List.replicate_succ]
    rw [convertInner_ok lib c n length pre.length w (hA w) ts m _ hm (by simp)]
    rw [set_length_append]
    have hpre : pre ++ lastTargetRule lib c length m (pre.length, w) :: List.replicate ws.length []
        = (pre ++ [lastTargetRule lib c length m (pre.length, w)]) ++ List.replicate ws.length [] := by
      simp
    simp only [hpre]
    rw [ih (pre.length + 1) (pre ++ [lastTargetRule lib c length m (pre.length, w)]) (by simp)]
    simp

/-- What `convert` returns for one of the ten styles and a target slice whose
last element is `m`: no error, and the fields rejoined, each decided by `m`
alone. -/
theorem convert_eq (lib : Cases) (d : GoString) (ts : FormatTargets) (c : Case) (n : Int)
    (line : GoString) (hc : c ∈ availableCases) (m : Int) (hm : ts.getLast? = some m) :
    convert lib d ts c n line =
      some (Join ((Split line d).enum.map
        (lastTargetRule lib c (Split line d).length m)) d, none) := by
  have h := convertOuter_ok lib c n (Split line d).length
    (fun w => Apply_snd_of_mem lib c w hc) ts m hm (Split line d) 0 [] rfl
  simp only [List.nil_append] at h
  simp only [convert, List.enum, h]

/-! ## `slices.Sort` -/

theorem slicesSort_perm (T : FormatTargets) : (slicesSort T).Perm T :=
  List.perm_insertionSort _ T

theorem slicesSort_sorted (T : FormatTargets) : (slicesSort T).Sorted (· ≤ ·) :=
  List.sorted_insertionSort _ T

/-- A non-empty target list has a last element after sorting. -/
theorem exists_getLast_slicesSort (T : FormatTargets) (hT : T ≠ []) :
    ∃ m, (slicesSort T).getLast? = some m := by
  have hne : slicesSort T ≠ [] := by
    intro h0
    have := (slicesSort_perm T).length_eq
    rw [h0] at this
    exact hT (List.length_eq_zero.mp this.symm)
  exact ⟨(slicesSort T).getLast hne, List.getLast?_eq_getLast _ hne⟩

/-- The last element of the sorted targets is one of the targets. -/
theorem getLast_slicesSort_mem (T : FormatTargets) (m : Int)
    (hm : (slicesSort T).getLast? = some m) : m ∈ T :=
  (slicesSort_perm T).mem_iff.mp (List.mem_of_getLast?_eq_some hm)

/-- The last element of the sorted targets is the largest target. -/
theorem le_getLast_slicesSort (T : FormatTargets) (m : Int)
    (hm : (slicesSort T).getLast? = some m) : ∀ x ∈ T, x ≤ m := by
  intro x hx
  have hx1 : x ∈ slicesSort T := (slicesSort_perm T).mem_iff.mpr hx
  have hne : slicesSort T ≠ [] := List.ne_nil_of_mem hx1
  have hlast : (slicesSort T).getLast hne = m := by
    rw [List.getLast?_eq_getLast _ hne] at hm
    exact Option.some.inj hm
  have hsorted := slicesSort_sorted T
  rw [← List.dropLast_append_getLast hne, hlast] at hsorted hx1
  rcases List.mem_append.mp hx1 with h | h
  · exact (List.pairwise_append.mp hsorted).2.2 x h m (by simp)
  · simp at h
    exact le_of_eq h

/-! ## Consequences for `convert` -/

/-- A last target outside `1..length` leaves every field as it is. -/
theorem map_lastTargetRule_of_out_of_range (lib : Cases) (c : Case) (length : Nat) (m : Int)
    (hm : ¬ (1 ≤ m ∧ m ≤ (length : Int))) (l : List GoString) :
    l.enum.map (lastTargetRule lib c length m) = l := by
  have hfun : lastTargetRule lib c length m = Prod.snd := by
    funext p
    unfold lastTargetRule
    rw [if_neg]
    rintro ⟨h1, h2, _⟩
    exact hm ⟨h1, h2⟩
  rw [hfun]
  exact List.enum_map_snd l

/-- Replacing the field at one index, written as a map over the indexed fields. -/
theorem map_enumFrom_eq_set (f : GoString → GoString) :
    ∀ (l : List GoString) (k j : Nat),
      (List.enumFrom k l).map (fun p => if p.1 = k + j then f p.2 else p.2)
        = l.set j (f (l.getD j [])) := by
  intro l
  induction l with
  | nil =>
    intro k j
    simp
  | cons a l ih =>
    intro k j
    cases j with
    | zero =>
      simp only [List.enumFrom_cons, List.map_cons, Nat.add_zero, if_true, List.set_cons_zero,
        List.getD_cons_zero, List.cons.injEq, true_and]
      have hfun : ∀ p ∈ List.enumFrom (k + 1) l,
          (fun p : Nat × GoString => if p.1 = k then f p.2 else p.2) p = Prod.snd p := by
        intro p hp
        have := List.le_fst_of_mem_enumFrom hp
        have hne : p.1 ≠ k := by omega
        simp [hne]
      rw [List.map_congr_left hfun]
      exact List.enumFrom_map_snd _ l
    | succ j =>
      have hk : k + (j + 1) = k + 1 + j := by omega
      have hne : k ≠ k + 1 + j := by omega
      simp only [List.enumFrom_cons, List.map_cons, hk, hne, if_false, List.set_cons_succ,
        List.getD_cons_succ, List.cons.injEq, true_and]
      exact ih (k + 1) j

/-- A last target `j + 1` in range replaces the field at index `j` only. -/
theorem map_lastTargetRule_of_in_range (lib : Cases) (c : Case) (l : List GoString) (j : Nat)
    (hj : j < l.length) :
    l.enum.map (lastTargetRule lib c l.length ((j : Int) + 1))
      = l.set j ((Case.Apply lib c (l.getD j [])).1) := by
  have hfun : lastTargetRule lib c l.length ((j : Int) + 1)
      = fun p => if p.1 = 0 + j then (fun w => (Case.Apply lib c w).1) p.2 else p.2 := by
    funext p
    unfold lastTargetRule
    have h1 : (1 : Int) ≤ (j : Int) + 1 := by omega
    have h2 : (j : Int) + 1 ≤ (l.length : Int) := by omega
    by_cases hp : p.1 = j
    · simp [hp, h2]
    · have hp2 : ¬ ((p.1 : Int) = (j : Int) + 1 - 1) := by omega
      simp [hp, hp2]
  rw [hfun]
  exact map_enumFrom_eq_set (fun w => (Case.Apply lib c w).1) l 0 j

/-- Replacing fields by clean texts keeps a list of fields clean. -/
theorem cleanFields_map_enumFrom (d : GoString) (F : Nat × GoString → GoString) :
    ∀ (fs : List GoString) (k : Nat), cleanFields d fs = true →
      (∀ p ∈ List.enumFrom k fs, F p = p.2 ∨ Index (F p ++ d.dropLast) d = none) →
      cleanFields d ((List.enumFrom k fs).map F) = true := by
  intro fs
  induction fs with
  | nil =>
    intro k h
    simp [cleanFields] at h
  | cons a l ih =>
    intro k h hF
    cases l with
    | nil =>
      have ha : Index a d = none := by simpa [cleanFields] using h
      have hF0 := hF (k, a) (by simp)
      simp only [List.enumFrom_cons, List.enumFrom_nil, List.map_cons, List.map_nil, cleanFields,
        Option.isNone_iff_eq_none]
      rcases hF0 with h0 | h0
      · rw [h0]
        exact ha
      · exact Index_none_of_append d _ _ h0
    | cons b rest =>
      simp only [cleanFields, Bool.and_eq_true, Option.isNone_iff_eq_none] at h
      obtain ⟨ha, hrest⟩ := h
      have hF0 := hF (k, a) (by simp)
      have hrec := ih (k + 1) hrest (fun p hp => hF p (by
        rw [List.enumFrom_cons]
        exact List.mem_cons_of_mem _ hp))
      rw [List.enumFrom_cons] at hrec
      simp only [List.enumFrom_cons, List.map_cons, cleanFields, Bool.and_eq_true,
        Option.isNone_iff_eq_none]
      simp only [List.map_cons] at hrec
      refine ⟨?_, hrec⟩
      rcases hF0 with h0 | h0
      · rw [h0]
        exact ha
      · exact h0

/-- What `convert` returns after `slices.Sort`, for one of the ten styles and
a non-empty target list: the fields rejoined, each decided by the largest
target `m`. -/
theorem convert_slicesSort (lib : Cases) (d : GoString) (T : FormatTargets) (c : Case)
    (n : Int) (line : GoString) (hc : c ∈ availableCases) (hT : T ≠ []) :
    ∃ m, m ∈ T ∧ (∀ x ∈ T, x ≤ m) ∧
      convert lib d (slicesSort T) c n line =
        some (Join ((Split line d).enum.map
          (lastTargetRule lib c (Split line d).length m)) d, none) := by
  obtain ⟨m, hm⟩ := exists_getLast_slicesSort T hT
  exact ⟨m, getLast_slicesSort_mem T m hm, le_getLast_slicesSort T m hm,
    convert_eq lib d (slicesSort T) c n line hc m hm⟩

/-! ## The claims about `convert` -/

/-- C1: with the delimiter ",", the targets 1 and 3, the style `UpperCase`
and the line "alpha,beta,gamma", `convert` leaves the first field as it is
and replaces the third only, whatever the library function returns; the
membership rule of the specification replaces the first field as well. With
the bytewise upper function the output is "alpha,beta,GAMMA". -/
theorem C1_first_target_is_lost (lib : Cases) :
    convert lib (str ",") (slicesSort [1, 3]) UpperCase 1 (str "alpha,beta,gamma")
      = some (Join [str "alpha", str "beta", lib.ToUpper (str "gamma")] (str ","), none) ∧
    Join ((Split (str "alpha,beta,gamma") (str ",")).enum.map
        (membershipRule lib UpperCase [1, 3])) (str ",")
      = Join [lib.ToUpper (str "alpha"), str "beta", lib.ToUpper (str "gamma")] (str ",") ∧
    convert asciiCases (str ",") (slicesSort [1, 3]) UpperCase 1 (str "alpha,beta,gamma")
      = some (str "alpha,beta,GAMMA", none) :=
  ⟨rfl, rfl, by decide⟩

/-- C2: with the delimiter ":", the style `UpperCase` and the line "a:b",
which has two fields, the target list 1 makes `convert` replace the first
field, and the target list 1, 5 makes it return the line unchanged: the
target 5, beyond the field count, is not ignored. -/
theorem C2_target_beyond_count_is_not_ignored (lib : Cases) :
    (Split (str "a:b") (str ":")).length = 2 ∧
    convert lib (str ":") (slicesSort [1]) UpperCase 1 (str "a:b")
      = some (Join [lib.ToUpper (str "a"), str "b"] (str ":"), none) ∧
    convert lib (str ":") (slicesSort ([1] ++ [5])) UpperCase 1 (str "a:b")
      = some (str "a:b", none) ∧
    convert asciiCases (str ":") (slicesSort [1]) UpperCase 1 (str "a:b")
      = some (str "A:b", none) :=
  ⟨by decide, rfl, rfl, by decide⟩

/-- C3: when every target is greater than the number of fields of the line,
`convert` returns no error and returns the line itself, for every non-empty
delimiter, every non-empty target list and each of the ten styles; joining
the fields of the line gives the line back. -/
theorem C3_targets_beyond_count_are_noop (lib : Cases) (d : GoString) (T : FormatTargets)
    (c : Case) (n : Int) (L : GoString) (hd : d ≠ []) (hT : T ≠ [])
    (hc : c ∈ availableCases) (hbig : ∀ t ∈ T, ((Split L d).length : Int) < t) :
    convert lib d (slicesSort T) c n L = some (L, none) ∧ Join (Split L d) d = L := by
  obtain ⟨m, hmT, _, hconv⟩ := convert_slicesSort lib d T c n L hc hT
  have hm := hbig m hmT
  rw [hconv, map_lastTargetRule_of_out_of_range lib c _ m (by omega), Join_Split d hd L]
  exact ⟨rfl, rfl⟩

/-- C3, at the delimiter ":", the target 5, the style `SnakeCase` and the
line "a:b". -/
theorem C3_targets_beyond_count_are_noop_witness :
    convert asciiCases (str ":") (slicesSort [5]) SnakeCase 1 (str "a:b")
      = some (str "a:b", none) ∧ Join (Split (str "a:b") (str ":")) (str ":") = str "a:b" :=
  C3_targets_beyond_count_are_noop asciiCases (str ":") [5] SnakeCase 1 (str "a:b")
    (by decide) (by decide) (by decide) (by decide)

/-- C4: with a single target `t` in range (`1 ≤ t` and `t` at most the number
of fields), `convert` returns no error and returns the fields rejoined with
the delimiter, where the field at position `t` is replaced by the style's
result on it and every other field is unchanged. -/
theorem C4_single_target_in_range (lib : Cases) (d : GoString) (c : Case) (n : Int)
    (L : GoString) (t : Int) (hc : c ∈ availableCases) (h1 : 1 ≤ t)
    (h2 : t ≤ ((Split L d).length : Int)) :
    convert lib d (slicesSort [t]) c n L =
      some (Join ((Split L d).set (t - 1).toNat
        ((Case.Apply lib c ((Split L d).getD (t - 1).toNat [])).1)) d, none) := by
  have hsort : slicesSort [t] = [t] := rfl
  rw [hsort, convert_eq lib d [t] c n L hc t rfl]
  have ht : t = (((t - 1).toNat : Nat) : Int) + 1 := by omega
  have hj : (t - 1).toNat < (Split L d).length := by omega
  have hmap := map_lastTargetRule_of_in_range lib c (Split L d) (t - 1).toNat hj
  rw [← ht] at hmap
  rw [hmap]

/-- C4, at the delimiter ":", the target 2, the style `KebabCase` and the
line "user:FirstName:42", with a kebab function that maps "FirstName" to
"first-name": the output is "user:first-name:42". -/
theorem C4_single_target_in_range_witness :
    asciiCases.ToKebab (str "FirstName") = str "first-name" ∧
    convert asciiCases (str ":") (slicesSort [2]) KebabCase 1 (str "user:FirstName:42")
      = some (str "user:first-name:42", none) :=
  ⟨by decide,
   (C4_single_target_in_range asciiCases (str ":") KebabCase 1 (str "user:FirstName:42") 2
    (by decide) (by decide) (by decide)).trans (by decide)⟩

/-- C5 fails as stated: with the delimiter "_", the target 1 and the style
`SnakeCase`, the line "fooBar_x" has two fields and the output "foo_bar_x"
has three. -/
theorem C5_field_count_counterexample :
    convert asciiCases (str "_") (slicesSort [1]) SnakeCase 1 (str "fooBar_x")
      = some (str "foo_bar_x", none) ∧
    (Split (str "fooBar_x") (str "_")).length = 2 ∧
    (Split (str "foo_bar_x") (str "_")).length = 3 := by
  decide

/-- C5, amended: for every non-empty delimiter `d`, every non-empty target
list, each of the ten styles and every line, `convert` returns no error, and
splitting its output on `d` yields the same number of fields as splitting the
line on `d`, provided that for every field at a target position the text that
the casing function returns for it, followed by `d` without its last byte,
contains no occurrence of `d`. -/
theorem C5_field_count_preserved (lib : Cases) (d : GoString) (T : FormatTargets) (c : Case)
    (n : Int) (L : GoString) (hd : d ≠ []) (hT : T ≠ []) (hc : c ∈ availableCases)
    (hclean : ∀ t ∈ T, ∀ p ∈ (Split L d).enum, (p.1 : Int) + 1 = t →
      Index ((Case.Apply lib c p.2).1 ++ d.dropLast) d = none) :
    ∃ out, convert lib d (slicesSort T) c n L = some (out, none) ∧
      (Split out d).length = (Split L d).length := by
  obtain ⟨m, hmT, _, hconv⟩ := convert_slicesSort lib d T c n L hc hT
  refine ⟨_, hconv, ?_⟩
  have hfields : cleanFields d ((Split L d).enum.map
      (lastTargetRule lib c (Split L d).length m)) = true := by
    apply cleanFields_map_enumFrom d _ (Split L d) 0 (cleanFields_Split d hd L)
    intro p hp
    unfold lastTargetRule
    by_cases hcond : 1 ≤ m ∧ m ≤ ((Split L d).length : Int) ∧ (p.1 : Int) = m - 1
    · right
      rw [if_pos hcond]
      exact hclean m hmT p hp (by omega)
    · left
      rw [if_neg hcond]
  rw [Split_Join d hd _ hfields]
  simp

/-- C5 amended, at the delimiter ":", the target 2, the style `KebabCase` and
the line "user:FirstName:42": the output has three fields, as the line has. -/
theorem C5_field_count_preserved_witness :
    ∃ out, convert asciiCases (str ":") (slicesSort [2]) KebabCase 1 (str "user:FirstName:42")
        = some (out, none) ∧
      (Split out (str ":")).length = (Split (str "user:FirstName:42") (str ":")).length :=
  C5_field_count_preserved asciiCases (str ":") [2] KebabCase 1 (str "user:FirstName:42")
    (by decide) (by decide) (by decide) (by decide)

/-- C6: for each of the ten styles, every delimiter and every line, two
non-empty target lists with the same members (in any order, with any
repetitions) make `convert` return the same result. -/
theorem C6_same_members_same_result (lib : Cases) (d : GoString) (T1 T2 : FormatTargets)
    (c : Case) (n : Int) (L : GoString) (hc : c ∈ availableCases) (h1 : T1 ≠ []) (h2 : T2 ≠ [])
    (hsame : ∀ x, x ∈ T1 ↔ x ∈ T2) :
    convert lib d (slicesSort T1) c n L = convert lib d (slicesSort T2) c n L := by
  obtain ⟨m1, hm1, hmax1, hconv1⟩ := convert_slicesSort lib d T1 c n L hc h1
  obtain ⟨m2, hm2, hmax2, hconv2⟩ := convert_slicesSort lib d T2 c n L hc h2
  have hm : m1 = m2 :=
    le_antisymm (hmax2 m1 ((hsame m1).mp hm1)) (hmax1 m2 ((hsame m2).mpr hm2))
  rw [hconv1, hconv2, hm]

/-- C6, at the target lists 3, 1, 3 and 1, 3, 1, 1. -/
theorem C6_same_members_same_result_witness :
    convert asciiCases (str ",") (slicesSort [3, 1, 3]) UpperCase 1 (str "alpha,beta,gamma")
      = convert asciiCases (str ",") (slicesSort [1, 3, 1, 1]) UpperCase 1
          (str "alpha,beta,gamma") :=
  C6_same_members_same_result asciiCases (str ",") [3, 1, 3] [1, 3, 1, 1] UpperCase 1
    (str "alpha,beta,gamma") (by decide) (by decide) (by decide) (by
      intro x
      simp
      tauto)

/-! ## The scan of `CaseFlag.Set` and the style list -/

/-- The test of the scan: equality with the name is a case of being a
beginning of the name. -/
theorem name_eq_or_HasPrefix (name s : GoString) :
    (name = s ∨ HasPrefix name s = true) ↔ HasPrefix name s = true := by
  constructor
  · rintro (h | h)
    · subst h
      exact List.isPrefixOf_iff_prefix.mpr (List.prefix_refl name)
    · exact h
  · exact Or.inr

/-- What the loop of `Set` returns from the value `i` with `k` values left:
the least value from `i` on that matches, or nothing when none of the `k`
values matches. -/
theorem setLoop_spec (U : GoString → GoString) (s : GoString) :
    ∀ (k : Nat) (i : Int),
      (∀ c, setLoop U s k i = some c →
        i ≤ c.val ∧ c.val < i + k ∧ HasPrefix (ToLower U c.String) s = true ∧
        ∀ c1 : Case, i ≤ c1.val → c1.val < c.val → HasPrefix (ToLower U c1.String) s = false) ∧
      (setLoop U s k i = none →
        ∀ c1 : Case, i ≤ c1.val → c1.val < i + k → HasPrefix (ToLower U c1.String) s = false) := by
  intro k
  induction k with
  | zero =>
    intro i
    refine ⟨fun c h => by simp [setLoop] at h, fun _ c1 h1 h2 => ?_⟩
    simp at h2
    omega
  | succ k ih =>
    intro i
    by_cases hm : HasPrefix (ToLower U (Case.String ⟨i⟩)) s = true
    · have hstep : setLoop U s (k + 1) i = some ⟨i⟩ := by
        simp only [setLoop]
        rw [if_pos ((name_eq_or_HasPrefix _ _).mpr hm)]
      refine ⟨fun c h => ?_, fun h => ?_⟩
      · rw [hstep] at h
        have hc : c = ⟨i⟩ := (Option.some.inj h).symm
        subst hc
        refine ⟨le_rfl, by simp, hm, fun c1 h1 h2 => ?_⟩
        simp at h2
        omega
      · rw [hstep] at h
        simp at h
    · have hstep : setLoop U s (k + 1) i = setLoop U s k (i + 1) := by
        simp only [setLoop]
        rw [if_neg (fun h => hm ((name_eq_or_HasPrefix _ _).mp h))]
      have hfalse : HasPrefix (ToLower U (Case.String ⟨i⟩)) s = false := by
        simpa using hm
      obtain ⟨ih1, ih2⟩ := ih (i + 1)
      refine ⟨fun c h => ?_, fun h c1 h1 h2 => ?_⟩
      · rw [hstep] at h
        obtain ⟨ha, hb, hc, hd⟩ := ih1 c h
        refine ⟨by omega, by push_cast; omega, hc, fun c1 h1 h2 => ?_⟩
        by_cases he : c1.val = i
        · have : c1 = ⟨i⟩ := by
            cases c1
            simp at he
            simp [he]
          rw [this]
          exact hfalse
        · exact hd c1 (by omega) h2
      · rw [hstep] at h
        by_cases he : c1.val = i
        · have : c1 = ⟨i⟩ := by
            cases c1
            simp at he
            simp [he]
          rw [this]
          exact hfalse
        · exact ih2 h c1 (by omega) (by push_cast at h2; omega)

/-- C18: `CaseFlag.Set` is a first-match scan over the eleven values
`Unknown`, `CamelCase`, ..., `UpperCase` (the values 0 to 10) in that order.
When the lowercase form of `s` is the beginning of the lowercase name of some
value, `Set` returns no error and sets `Value` to the least such value;
otherwise it returns the error "invalid case: ..." and leaves the flag
unchanged.  A successful `Set` never leaves a value outside 0 to 10.  So "s"
gives `SnakeCase`, "screaming" gives `ScreamingSnakeCase`, "t" gives
`TrainCase`, and the empty string, "u" and "unknown" give `Unknown`. -/
theorem C18_Set_is_first_match_scan (U : GoString → GoString) (cf : CaseFlag) (s : GoString) :
    ((∃ c : Case, 0 ≤ c.val ∧ c.val ≤ 10 ∧
        HasPrefix (ToLower U c.String) (ToLower U s) = true) →
      ∃ c : Case, CaseFlag.Set U cf s = ({ cf with Value := c }, none) ∧
        0 ≤ c.val ∧ c.val ≤ 10 ∧ HasPrefix (ToLower U c.String) (ToLower U s) = true ∧
        ∀ c1 : Case, 0 ≤ c1.val → c1.val < c.val →
          HasPrefix (ToLower U c1.String) (ToLower U s) = false) ∧
    ((¬ ∃ c : Case, 0 ≤ c.val ∧ c.val ≤ 10 ∧
        HasPrefix (ToLower U c.String) (ToLower U s) = true) →
      CaseFlag.Set U cf s = (cf, some (str "invalid case: " ++ ToLower U s))) ∧
    ((CaseFlag.Set U cf s).2 = none →
      0 ≤ (CaseFlag.Set U cf s).1.Value.val ∧ (CaseFlag.Set U cf s).1.Value.val ≤ 10) ∧
    CaseFlag.Set U cf (str "s") = ({ cf with Value := SnakeCase }, none) ∧
    CaseFlag.Set U cf (str "screaming") = ({ cf with Value := ScreamingSnakeCase }, none) ∧
    CaseFlag.Set U cf (str "t") = ({ cf with Value := TrainCase }, none) ∧
    CaseFlag.Set U cf (str "") = ({ cf with Value := Unknown }, none) ∧
    CaseFlag.Set U cf (str "u") = ({ cf with Value := Unknown }, none) ∧
    CaseFlag.Set U cf (str "unknown") = ({ cf with Value := Unknown }, none) := by
  obtain ⟨hsome, hnone⟩ := setLoop_spec U (ToLower U s) 11 0
  refine ⟨?_, ?_, ?_, rfl, rfl, rfl, rfl, rfl, rfl⟩
  · rintro ⟨c, hc0, hc10, hcm⟩
    cases hloop : setLoop U (ToLower U s) 11 0 with
    | none =>
      have := hnone hloop c hc0 (by simp; omega)
      rw [this] at hcm
      exact absurd hcm (by simp)
    | some c0 =>
      obtain ⟨ha, hb, hc, hd⟩ := hsome c0 hloop
      refine ⟨c0, ?_, ha, by simp at hb; omega, hc, hd⟩
      simp [CaseFlag.Set, hloop]
  · intro hno
    cases hloop : setLoop U (ToLower U s) 11 0 with
    | none => simp [CaseFlag.Set, hloop]
    | some c0 =>
      obtain ⟨ha, hb, hc, _⟩ := hsome c0 hloop
      exact absurd ⟨c0, ha, by simp at hb; omega, hc⟩ hno
  · cases hloop : setLoop U (ToLower U s) 11 0 with
    | none => simp [CaseFlag.Set, hloop]
    | some c0 =>
      obtain ⟨ha, hb, _, _⟩ := hsome c0 hloop
      intro _
      simp only [CaseFlag.Set, hloop]
      exact ⟨ha, by simp at hb; omega⟩

/-- C19: `availableCases()` is the list of the values 1 to 10 in increasing
order, that is the ten styles `CamelCase`, ..., `UpperCase` in enumeration
order, each once, and never `Unknown`; a value is in `availableCases()` exactly
when `Case.Apply` returns no error for it; the names of the eleven values 0 to
10 are pairwise distinct, also after lowercasing. -/
theorem C19_style_list_is_supported_set (lib : Cases) (U : GoString → GoString) :
    availableCases = (List.range' 1 10).map (fun i => (⟨(i : Int)⟩ : Case)) ∧
    availableCases = [CamelCase, PascalCase, SnakeCase, ScreamingSnakeCase, KebabCase,
      ScreamingKebabCase, TrainCase, TitleCase, LowerCase, UpperCase] ∧
    availableCases.Nodup ∧ Unknown ∉ availableCases ∧
    (∀ (c : Case) (text : GoString),
      c ∈ availableCases ↔ (Case.Apply lib c text).2 = none) ∧
    ((List.range 11).map (fun i => Case.String ⟨(i : Int)⟩)).Nodup ∧
    ((List.range 11).map (fun i => ToLower U (Case.String ⟨(i : Int)⟩))).Nodup := by
  refine ⟨by decide, rfl, by decide, by decide, ?_, by decide, ?_⟩
  · intro c text
    constructor
    · exact Apply_snd_of_mem lib c text
    · intro h
      by_contra hc
      rw [Apply_of_not_mem lib c text hc] at h
      simp at h
  · have h : (List.range 11).map (fun i => ToLower U (Case.String ⟨(i : Int)⟩))
        = [str "unknown", str "camelcase", str "pascalcase", str "snakecase",
           str "screamingsnakecase", str "kebabcase", str "screamingkebabcase",
           str "traincase", str "titlecase", str "lowercase", str "uppercase"] := rfl
    rw [h]
    decide

/-! ## The loops of `convert`, for every style and every target slice -/

/-- The inner loop either ends with a slice of the same length or returns the
error of a failed casing step; it never writes outside the slice. -/
theorem convertInner_total (lib : Cases) (c : Case) (n : Int) (length i : Nat) (w : GoString) :
    ∀ (ts : List Int) (r : List GoString), i < r.length →
      (∃ r1, convertInner lib c n length i w ts r = .ok r1 ∧ r1.length = r.length) ∨
      (∃ e, convertInner lib c n length i w ts r = .error (.err e) ∧
        (Case.Apply lib c w).2 ≠ none) := by
  intro ts
  induction ts with
  | nil =>
    intro r _
    exact Or.inl ⟨r, rfl, rfl⟩
  | cons t rest ih =>
    intro r hi
    have hset : (r.set i w).length = r.length := by simp
    by_cases hcond : 1 ≤ t ∧ t ≤ (length : Int) ∧ (i : Int) = t - 1
    · obtain ⟨x, e, hp⟩ : ∃ x e, Case.Apply lib c w = (x, e) := ⟨_, _, rfl⟩
      cases e with
      | some e =>
        right
        have hne : (Case.Apply lib c w).2 ≠ none := by rw [hp]; simp
        have hstep : convertInner lib c n length i w (t :: rest) r =
            .error (.err (str "error at: line=" ++ formatInt n ++ str " col=" ++ formatInt t
              ++ str " word=" ++ w ++ str " case=" ++ c.String ++ str ", " ++ e)) := by
          simp only [convertInner, if_pos hcond, hp]
        exact ⟨_, hstep, hne⟩
      | none =>
        have hstep : convertInner lib c n length i w (t :: rest) r
            = convertInner lib c n length i w rest (r.set i x) := by
          simp only [convertInner, if_pos hcond, hp, writeAt, if_pos hi]
        rw [hstep]
        rcases ih (r.set i x) (by simpa using hi) with ⟨r1, h1, h2⟩ | ⟨e, h1, h2⟩
        · exact Or.inl ⟨r1, h1, by simpa using h2⟩
        · exact Or.inr ⟨e, h1, h2⟩
    · have hstep : convertInner lib c n length i w (t :: rest) r
          = convertInner lib c n length i w rest (r.set i w) := by
        simp only [convertInner, if_neg hcond, writeAt, if_pos hi]
      rw [hstep]
      rcases ih (r.set i w) (by simpa using hi) with ⟨r1, h1, h2⟩ | ⟨e, h1, h2⟩
      · exact Or.inl ⟨r1, h1, by simpa using h2⟩
      · exact Or.inr ⟨e, h1, h2⟩

/-- The outer loop either ends with a slice of the same length or returns the
error of a failed casing step. -/
theorem convertOuter_total (lib : Cases) (c : Case) (ts : List Int) (n : Int) (length : Nat) :
    ∀ (ws : List GoString) (k : Nat) (r : List GoString), k + ws.length ≤ r.length →
      (∃ r1, convertOuter lib c ts n length (List.enumFrom k ws) r = .ok r1 ∧
        r1.length = r.length) ∨
      (∃ e w, convertOuter lib c ts n length (List.enumFrom k ws) r = .error (.err e) ∧
        (Case.Apply lib c w).2 ≠ none) := by
  intro ws
  induction ws with
  | nil =>
    intro k r _
    exact Or.inl ⟨r, rfl, rfl⟩
  | cons w ws ih =>
    intro k r hk
    simp only [List.length_cons] at hk
    rcases convertInner_total lib c n length k w ts r (by omega) with ⟨r1, h1, h2⟩ | ⟨e, h1, h2⟩
    · have hstep : convertOuter lib c ts n length (List.enumFrom k (w :: ws)) r
          = convertOuter lib c ts n length (List.enumFrom (k + 1) ws) r1 := by
        simp only [List.enumFrom_cons, convertOuter, h1]
      rw [hstep]
      rcases ih (k + 1) r1 (by omega) with ⟨r2, h3, h4⟩ | ⟨e, w1, h3, h4⟩
      · exact Or.inl ⟨r2, h3, by omega⟩
      · exact Or.inr ⟨e, w1, h3, h4⟩
    · right
      refine ⟨e, w, ?_, h2⟩
      simp only [List.enumFrom_cons, convertOuter, h1]

/-- The call `convert` never panics: it returns a string without error, or
the empty string with the error of a failed casing step. -/
theorem convert_total (lib : Cases) (d : GoString) (ts : FormatTargets) (c : Case) (n : Int)
    (line : GoString) :
    (∃ out, convert lib d ts c n line = some (out, none)) ∨
    (∃ e w, convert lib d ts c n line = some ([], some e) ∧ (Case.Apply lib c w).2 ≠ none) := by
  rcases convertOuter_total lib c ts n (Split line d).length (Split line d) 0
      (List.replicate (Split line d).length []) (by simp) with ⟨r1, h1, _⟩ | ⟨e, w, h1, h2⟩
  · left
    refine ⟨Join r1 d, ?_⟩
    simp only [convert, List.enum, h1]
  · right
    refine ⟨e, w, ?_, h2⟩
    simp only [convert, List.enum, h1]

/-- The inner loop when no target selects the field: the field is stored
unchanged (or nothing is stored when there is no target at all). -/
theorem convertInner_miss (lib : Cases) (c : Case) (n : Int) (length i : Nat) (w : GoString) :
    ∀ (ts : List Int) (r : List GoString), i < r.length →
      (∀ t ∈ ts, ¬ (1 ≤ t ∧ t ≤ (length : Int) ∧ (i : Int) = t - 1)) →
      ∃ r1, convertInner lib c n length i w ts r = .ok r1 ∧ r1.length = r.length := by
  intro ts
  induction ts with
  | nil =>
    intro r _ _
    exact ⟨r, rfl, rfl⟩
  | cons t rest ih =>
    intro r hi hmiss
    have hcond := hmiss t (by simp)
    have hstep : convertInner lib c n length i w (t :: rest) r
        = convertInner lib c n length i w rest (r.set i w) := by
      simp only [convertInner, if_neg hcond, writeAt, if_pos hi]
    rw [hstep]
    obtain ⟨r1, h1, h2⟩ := ih (r.set i w) (by simpa using hi)
      (fun t1 ht1 => hmiss t1 (List.mem_cons_of_mem _ ht1))
    exact ⟨r1, h1, by simpa using h2⟩

/-- The inner loop when some target selects the field and the casing step
fails on it: the error names the line, the position of the field, the field
and the style. -/
theorem convertInner_hit (lib : Cases) (c : Case) (n : Int) (length i : Nat) (w : GoString)
    (cause : GoError) (hfail : (Case.Apply lib c w).2 = some cause) :
    ∀ (ts : List Int) (r : List GoString), i < r.length →
      (∃ t ∈ ts, 1 ≤ t ∧ t ≤ (length : Int) ∧ (i : Int) = t - 1) →
      convertInner lib c n length i w ts r =
        .error (.err (str "error at: line=" ++ formatInt n ++ str " col="
          ++ formatInt ((i : Int) + 1) ++ str " word=" ++ w ++ str " case=" ++ c.String
          ++ str ", " ++ cause)) := by
  intro ts
  induction ts with
  | nil =>
    intro r _ h
    simp at h
  | cons t rest ih =>
    intro r hi hhit
    by_cases hcond : 1 ≤ t ∧ t ≤ (length : Int) ∧ (i : Int) = t - 1
    · have ht : t = (i : Int) + 1 := by omega
      subst ht
      obtain ⟨x, e, hp⟩ : ∃ x e, Case.Apply lib c w = (x, e) := ⟨_, _, rfl⟩
      rw [hp] at hfail
      simp only at hfail
      subst hfail
      simp only [convertInner, if_pos hcond, hp]
    · have hstep : convertInner lib c n length i w (t :: rest) r
          = convertInner lib c n length i w rest (r.set i w) := by
        simp only [convertInner, if_neg hcond, writeAt, if_pos hi]
      rw [hstep]
      apply ih (r.set i w) (by simpa using hi)
      obtain ⟨t1, ht1, hc1⟩ := hhit
      rcases List.mem_cons.mp ht1 with h | h
      · subst h
        exact absurd hc1 hcond
      · exact ⟨t1, h, hc1⟩

/-- The outer loop when no target selects any of the fields `ws1`, some target
selects the field `w` behind them and the casing step fails on `w`. -/
theorem convertOuter_hit (lib : Cases) (c : Case) (ts : List Int) (n : Int) (length : Nat)
    (w : GoString) (ws2 : List GoString) (cause : GoError)
    (hfail : (Case.Apply lib c w).2 = some cause) :
    ∀ (ws1 : List GoString) (k : Nat) (r : List GoString), k + ws1.length < r.length →
      (∀ p ∈ List.enumFrom k ws1, ∀ t ∈ ts,
        ¬ (1 ≤ t ∧ t ≤ (length : Int) ∧ (p.1 : Int) = t - 1)) →
      (∃ t ∈ ts, 1 ≤ t ∧ t ≤ (length : Int) ∧ ((k + ws1.length : Nat) : Int) = t - 1) →
      convertOuter lib c ts n length (List.enumFrom k (ws1 ++ w :: ws2)) r =
        .error (.err (str "error at: line=" ++ formatInt n ++ str " col="
          ++ formatInt (((k + ws1.length : Nat) : Int) + 1) ++ str " word=" ++ w
          ++ str " case=" ++ c.String ++ str ", " ++ cause)) := by
  intro ws1
  induction ws1 with
  | nil =>
    intro k r hk _ hhit
    simp only [List.length_nil, Nat.add_zero] at hk hhit ⊢
    simp only [List.nil_append, List.enumFrom_cons, convertOuter]
    rw [convertInner_hit lib c n length k w cause hfail ts r hk hhit]
  | cons a ws1 ih =>
    intro k r hk hmiss hhit
    simp only [List.length_cons] at hk hhit ⊢
    obtain ⟨r1, h1, h2⟩ := convertInner_miss lib c n length k a ts r (by omega)
      (fun t ht => hmiss (k, a) (by simp) t ht)
    have hidx : k + (ws1.length + 1) = k + 1 + ws1.length := by omega
    simp only [List.cons_append, List.enumFrom_cons, convertOuter, h1]
    rw [hidx] at hhit ⊢
    exact ih (k + 1) r1 (by omega)
      (fun p hp => hmiss p (by
        rw [List.enumFrom_cons]
        exact List.mem_cons_of_mem _ hp)) hhit

/-- The rule of the last target, written as the single-position rule. -/
theorem map_lastTargetRule_eq_singlePositionRule (lib : Cases) (c : Case) (m : Int)
    (l : List GoString) :
    l.enum.map (lastTargetRule lib c l.length m) = singlePositionRule lib c m l := by
  unfold singlePositionRule
  by_cases hm : 1 ≤ m ∧ m ≤ (l.length : Int)
  · rw [if_pos hm]
    have ht : m = (((m - 1).toNat : Nat) : Int) + 1 := by omega
    have hj : (m - 1).toNat < l.length := by omega
    have hmap := map_lastTargetRule_of_in_range lib c l (m - 1).toNat hj
    rw [← ht] at hmap
    exact hmap
  · rw [if_neg hm]
    exact map_lastTargetRule_of_out_of_range lib c l.length m hm l

/-- A list cut at one of its indices. -/
theorem eq_take_getD_drop (l : List GoString) (j : Nat) (hj : j < l.length) :
    l = l.take j ++ l.getD j [] :: l.drop (j + 1) := by
  have h1 : l.getD j [] = l[j] := by
    rw [List.getD_eq_getElem?_getD, List.getElem?_eq_getElem hj]
    rfl
  rw [h1, ← List.drop_eq_getElem_cons hj, List.take_append_drop]

/-- C17: for each of the ten styles, `convert` returns no error and does not
panic, for every delimiter (also the empty one), every target slice (also with
targets that are zero, negative, larger than the number of fields, unsorted or
absent), every line and every line number.  In the model a write `r[i]`
outside `0 ≤ i < len(r)` makes `convert` panic, so all writes are in bounds. -/
theorem C17_resolved_style_never_fails (lib : Cases) (d : GoString) (ts : FormatTargets)
    (c : Case) (n : Int) (L : GoString) (hc : c ∈ availableCases) :
    ∃ out, convert lib d ts c n L = some (out, none) := by
  rcases convert_total lib d ts c n L with h | ⟨e, w, _, h2⟩
  · exact h
  · exact absurd (Apply_snd_of_mem lib c w hc) h2

/-- C17, at the empty delimiter, the targets 0, -3, 99 and 2, the style
`UpperCase` and the line "ab". -/
theorem C17_resolved_style_never_fails_witness :
    ∃ out, convert asciiCases (str "") [0, -3, 99, 2] UpperCase 1 (str "ab") = some (out, none) :=
  C17_resolved_style_never_fails asciiCases (str "") [0, -3, 99, 2] UpperCase 1 (str "ab")
    (by decide)

/-- C16: for each of the ten styles, a target list with largest element `m`
and every line, `convert` returns no error and returns the fields of the line
rejoined, where the field at position `m` is replaced by the style's result
when `1 ≤ m` and `m` is at most the number of fields, and every other field is
unchanged.  So the output is the output for the single target `m`, and when
`m` is zero or negative no field is replaced. -/
theorem C16_largest_target_decides (lib : Cases) (d : GoString) (T : FormatTargets) (c : Case)
    (n : Int) (L : GoString) (m : Int) (hc : c ∈ availableCases) (hm : m ∈ T)
    (hmax : ∀ x ∈ T, x ≤ m) :
    convert lib d (slicesSort T) c n L
      = some (Join (singlePositionRule lib c m (Split L d)) d, none) ∧
    convert lib d (slicesSort T) c n L = convert lib d (slicesSort [m]) c n L ∧
    (m ≤ 0 → convert lib d (slicesSort T) c n L = some (Join (Split L d) d, none)) := by
  obtain ⟨m1, hm1, hmax1, hconv⟩ := convert_slicesSort lib d T c n L hc (List.ne_nil_of_mem hm)
  have hmm : m1 = m := le_antisymm (hmax m1 hm1) (hmax1 m hm)
  subst hmm
  have hsingle : convert lib d (slicesSort [m1]) c n L
      = some (Join (singlePositionRule lib c m1 (Split L d)) d, none) := by
    have hsort : slicesSort [m1] = [m1] := rfl
    rw [hsort, convert_eq lib d [m1] c n L hc m1 rfl, map_lastTargetRule_eq_singlePositionRule]
  rw [map_lastTargetRule_eq_singlePositionRule] at hconv
  refine ⟨hconv, hconv.trans hsingle.symm, fun hneg => ?_⟩
  rw [hconv]
  unfold singlePositionRule
  rw [if_neg (by omega)]

/-- C16, at the targets 3, 1, 2 and the line "a:b:c": only the third field is
replaced. -/
theorem C16_largest_target_decides_witness :
    convert asciiCases (str ":") (slicesSort [3, 1, 2]) UpperCase 1 (str "a:b:c")
      = some (str "a:b:C", none) :=
  (C16_largest_target_decides asciiCases (str ":") [3, 1, 2] UpperCase 1 (str "a:b:c") 3
    (by decide) (by decide) (by decide)).1.trans (by decide)

/-- C11: when the casing step fails with the error `cause` on the field at the
smallest target position `t` that is in range (`1 ≤ t` and `t` at most the
number of fields), `convert`, called with the line number `n`, returns the
empty string and the error "error at: line=n col=t word=w case=style, cause",
where `w` is the original text of the field at position `t` and `style` is
the name of the configured style. -/
theorem C11_error_names_smallest_target (lib : Cases) (d : GoString) (T : FormatTargets)
    (c : Case) (n : Int) (L : GoString) (t : Int) (cause : GoError)
    (ht : t ∈ T) (h1 : 1 ≤ t) (h2 : t ≤ ((Split L d).length : Int))
    (hmin : ∀ x ∈ T, 1 ≤ x → x ≤ ((Split L d).length : Int) → t ≤ x)
    (hfail : (Case.Apply lib c ((Split L d).getD (t - 1).toNat [])).2 = some cause) :
    convert lib d (slicesSort T) c n L =
      some ([], some (str "error at: line=" ++ formatInt n ++ str " col=" ++ formatInt t
        ++ str " word=" ++ (Split L d).getD (t - 1).toNat [] ++ str " case=" ++ c.String
        ++ str ", " ++ cause)) := by
  have hj : (t - 1).toNat < (Split L d).length := by omega
  have hdec := eq_take_getD_drop (Split L d) (t - 1).toNat hj
  have hlen : ((Split L d).take (t - 1).toNat).length = (t - 1).toNat := by
    rw [List.length_take]
    omega
  have hcol : (((0 + ((Split L d).take (t - 1).toNat).length : Nat) : Int) + 1) = t := by
    rw [hlen]
    omega
  have houter := convertOuter_hit lib c (slicesSort T) n (Split L d).length
    ((Split L d).getD (t - 1).toNat []) ((Split L d).drop ((t - 1).toNat + 1)) cause hfail
    ((Split L d).take (t - 1).toNat) 0 (List.replicate (Split L d).length [])
    (by rw [hlen]; simp; omega)
    (by
      intro p hp x hx hcond
      have hx1 : x ∈ T := (slicesSort_perm T).mem_iff.mp hx
      have hp1 := List.fst_lt_add_of_mem_enumFrom hp
      rw [hlen] at hp1
      have := hmin x hx1 hcond.1 hcond.2.1
      omega)
    ⟨t, (slicesSort_perm T).mem_iff.mpr ht, h1, h2, by rw [hlen]; omega⟩
  rw [← hdec, hcol] at houter
  simp only [convert, List.enum, houter]

/-- C11, at the delimiter ":", the targets 3 and 2, the value `Unknown` as the
style, the line number 7 and the line "a:b:c". -/
theorem C11_error_names_smallest_target_witness :
    convert asciiCases (str ":") (slicesSort [3, 2]) Unknown 7 (str "a:b:c") =
      some ([], some (str "error at: line=7 col=2 word=b case=unknown, unknown case: unknown")) :=
  (C11_error_names_smallest_target asciiCases (str ":") [3, 2] Unknown 7 (str "a:b:c") 2
    (str "unknown case: unknown") (by decide) (by decide) (by decide) (by decide)
    (by decide)).trans (by decide)

/-! ## The flags and the body of `main` -/

/-- C14: on the value "1,3" `FormatTargets.Set` returns the syntax error of
`strconv.Atoi` and adds no position, although the usage text of `-targets`
announces a comma-separated list; the program then ends in `flag.Parse` with
status 2.  Positions are accepted one per flag only. -/
theorem C14_comma_list_is_rejected (lib : Cases) (U Q : GoString → GoString)
    (f : FormatTargets) (stdin : Stdin) :
    FormatTargets.Set Q f (str "1,3")
      = (f, some (str "strconv.Atoi: parsing " ++ Q (str "1,3") ++ str ": invalid syntax")) ∧
    FormatTargets.Set Q (FormatTargets.Set Q f (str "1")).1 (str "3") = (f ++ [1] ++ [3], none) ∧
    main lib U Q [str "-targets", str "1,3", str "-case", str "upper"] stdin
      = ⟨[], [Stderr.println (str "invalid value " ++ Q (str "1,3") ++ str " for flag -"
          ++ str "targets" ++ str ": " ++ (str "strconv.Atoi: parsing " ++ Q (str "1,3")
          ++ str ": invalid syntax")), Stderr.usage], 2, 0⟩ :=
  ⟨rfl, rfl, rfl⟩

set_option maxRecDepth 20000 in
/-- Every name of `availableCases()` stands in the listing, on a line of its
own behind a tab. -/
theorem availableListing_names :
    ∀ c ∈ availableCases, ([9] ++ c.String ++ [10]) <:+: availableListing := by
  decide

/-- With a non-empty delimiter, at least one target and a style other than
`Unknown`, the body of `main` is the line loop with the sorted targets. -/
theorem mainBody_of_accepted (lib : Cases) (d : GoString) (T : FormatTargets)
    (cf : CaseFlag) (stdin : Stdin) (h : ¬ (d = [] ∨ T = [] ∨ cf.Value = Unknown)) :
    mainBody lib d T cf stdin
      = scanLoop lib d (slicesSort T) cf.Value stdin.err 0 stdin.lines := by
  have hg : ¬ (d = [] ∨ T.length = 0 ∨ cf.Value = Unknown) := by
    rw [List.length_eq_zero]
    exact h
  unfold mainBody
  rw [if_neg hg]

/-- With an empty delimiter, no target or the style `Unknown`, the body of
`main` writes the usage text, and the style listing when the style is
`Unknown`, and ends with status 1 without reading a line. -/
theorem mainBody_of_rejected (lib : Cases) (d : GoString) (T : FormatTargets)
    (cf : CaseFlag) (stdin : Stdin) (h : d = [] ∨ T = [] ∨ cf.Value = Unknown) :
    mainBody lib d T cf stdin
      = ⟨[], Stderr.usage :: (if cf.Value = Unknown then [Stderr.println availableListing]
          else []), 1, 0⟩ := by
  have hg : d = [] ∨ T.length = 0 ∨ cf.Value = Unknown := by
    rw [List.length_eq_zero]
    exact h
  unfold mainBody
  rw [if_pos hg]

/-- When `flag.Parse` returns with the flags `fl`, `main` goes on with its
body on these flags. -/
theorem main_of_parsed (lib : Cases) (U Q : GoString → GoString) (args : List GoString)
    (stdin : Stdin) (fl : Flags)
    (hparse : flagParse U Q args.length ⟨str ":", [], ⟨Unknown⟩⟩ args = .ok fl) :
    main lib U Q args stdin = mainBody lib fl.d fl.fmtTargets fl.caseFlag stdin := by
  unfold main
  rw [hparse]

set_option maxRecDepth 20000 in
/-- The style listing, written out: the heading line, then the ten style names
in the order of `availableCases()`, each behind a tab and ended by a newline. -/
theorem availableListing_eq :
    availableListing =
      str "Available values for " ++ [39] ++ str "case" ++ [39] ++ str " is ..." ++ [10]
        ++ ([str "CamelCase", str "PascalCase", str "SnakeCase", str "ScreamingSnakeCase",
            str "KebabCase", str "ScreamingKebabCase", str "TrainCase", str "TitleCase",
            str "LowerCase", str "UpperCase"].map (fun nm => [9] ++ nm ++ [10])).flatten := by
  decide

/-- C12 fails as stated on the whole program.  With the arguments
`-case bogus` no target is given and the style is still `Unknown`, yet the
status is 2, not 1, and the style listing is not written: `flag.Parse` ends
the program.  With the arguments `-targets 1 -case upper -x` the delimiter is
":", the target 1 is given and the style is `UpperCase` when the undefined
flag `-x` ends the program with status 2; no line is processed. -/
theorem C12_flag_error_counterexample :
    main asciiCases id asciiQuote [str "-case", str "bogus"] ⟨[str "a:b"], none⟩
      = ⟨[], [Stderr.println (str "invalid value " ++ asciiQuote (str "bogus")
          ++ str " for flag -case: invalid case: bogus"), Stderr.usage], 2, 0⟩ ∧
    stateAfter id asciiQuote 2 ⟨str ":", [], ⟨Unknown⟩⟩
        [str "-targets", str "1", str "-case", str "upper", str "-x"]
      = some (⟨str ":", [1], ⟨UpperCase⟩⟩, [str "-x"]) ∧
    main asciiCases id asciiQuote [str "-targets", str "1", str "-case", str "upper", str "-x"]
        ⟨[str "a:b"], none⟩
      = ⟨[], [Stderr.println (str "flag provided but not defined: -x"), Stderr.usage], 2, 0⟩ := by
  decide

/-- C12, amended: whenever `flag.Parse` returns, with the flags `fl`, the
configuration is rejected exactly when the delimiter is empty, or there is no
target, or the style is `Unknown`.  Then the program ends with status 1, no
line is read, nothing is printed, standard error receives the usage text and
after it, exactly when the style is `Unknown`, the style listing.  In every
other case the run is the run of the line loop on the input, with the sorted
targets.  The style listing is the heading line followed by the ten style
names, each on a line of its own behind a tab, in the order of
`availableCases()`. -/
theorem C12_configuration_check (lib : Cases) (U Q : GoString → GoString)
    (args : List GoString) (stdin : Stdin) (fl : Flags)
    (hparse : flagParse U Q args.length ⟨str ":", [], ⟨Unknown⟩⟩ args = .ok fl) :
    ((fl.d = [] ∨ fl.fmtTargets = [] ∨ fl.caseFlag.Value = Unknown) →
      (main lib U Q args stdin).status = 1 ∧
      (main lib U Q args stdin).linesRead = 0 ∧
      (main lib U Q args stdin).stdout = [] ∧
      (main lib U Q args stdin).stderr = Stderr.usage ::
        (if fl.caseFlag.Value = Unknown then [Stderr.println availableListing] else []) ∧
      (Stderr.println availableListing ∈ (main lib U Q args stdin).stderr
        ↔ fl.caseFlag.Value = Unknown)) ∧
    (¬ (fl.d = [] ∨ fl.fmtTargets = [] ∨ fl.caseFlag.Value = Unknown) →
      main lib U Q args stdin
        = scanLoop lib fl.d (slicesSort fl.fmtTargets) fl.caseFlag.Value stdin.err 0
            stdin.lines) ∧
    availableListing =
      str "Available values for " ++ [39] ++ str "case" ++ [39] ++ str " is ..." ++ [10]
        ++ ([str "CamelCase", str "PascalCase", str "SnakeCase", str "ScreamingSnakeCase",
            str "KebabCase", str "ScreamingKebabCase", str "TrainCase", str "TitleCase",
            str "LowerCase", str "UpperCase"].map (fun nm => [9] ++ nm ++ [10])).flatten ∧
    (∀ c ∈ availableCases, ([9] ++ c.String ++ [10]) <:+: availableListing) := by
  have hmain := main_of_parsed lib U Q args stdin fl hparse
  refine ⟨?_, ?_, availableListing_eq, availableListing_names⟩
  · intro h
    rw [hmain, mainBody_of_rejected lib fl.d fl.fmtTargets fl.caseFlag stdin h]
    refine ⟨rfl, rfl, rfl, rfl, ?_⟩
    by_cases hu : fl.caseFlag.Value = Unknown
    · simp [hu]
    · simp [hu]
  · intro h
    rw [hmain, mainBody_of_accepted lib fl.d fl.fmtTargets fl.caseFlag stdin h]

/-- C12 amended, at the arguments `-delim "" -targets 1 -case upper`: the
empty delimiter is rejected with status 1, the usage text and no listing. -/
theorem C12_configuration_check_witness :
    (main asciiCases id asciiQuote
        [str "-delim", str "", str "-targets", str "1", str "-case", str "upper"]
        ⟨[str "a:b"], none⟩).status = 1 ∧
    (main asciiCases id asciiQuote
        [str "-delim", str "", str "-targets", str "1", str "-case", str "upper"]
        ⟨[str "a:b"], none⟩).linesRead = 0 ∧
    (main asciiCases id asciiQuote
        [str "-delim", str "", str "-targets", str "1", str "-case", str "upper"]
        ⟨[str "a:b"], none⟩).stdout = [] ∧
    (main asciiCases id asciiQuote
        [str "-delim", str "", str "-targets", str "1", str "-case", str "upper"]
        ⟨[str "a:b"], none⟩).stderr = [Stderr.usage] ∧
    (Stderr.println availableListing ∈ (main asciiCases id asciiQuote
        [str "-delim", str "", str "-targets", str "1", str "-case", str "upper"]
        ⟨[str "a:b"], none⟩).stderr ↔ UpperCase = Unknown) :=
  (C12_configuration_check asciiCases id asciiQuote
    [str "-delim", str "", str "-targets", str "1", str "-case", str "upper"]
    ⟨[str "a:b"], none⟩ ⟨[], [1], ⟨UpperCase⟩⟩ rfl).1 (Or.inl rfl)

/-- The line loop on a clean input, from the line number `k + 1` on: the lines
printed are the outputs of the calls of `convert` before the first failing
one, standard error receives the error of the first failing call, the status
is 1 when a call fails and 0 otherwise, and no line behind the first failing
one is read.  The line at index `i` of the input is passed the line number
`i + 1`. -/
theorem scanLoop_spec (lib : Cases) (d : GoString) (ts : FormatTargets) (c : Case) :
    ∀ (lines : List GoString) (k : Nat),
      (scanLoop lib d ts c none (k : Int) lines).stdout =
        (((List.enumFrom k lines).map
          (fun p => convert lib d ts c ((p.1 : Int) + 1) p.2)).takeWhile succeeded).map outputOf ∧
      (scanLoop lib d ts c none (k : Int) lines).stderr =
        stderrOf ((List.enumFrom k lines).map
          (fun p => convert lib d ts c ((p.1 : Int) + 1) p.2)) ∧
      (scanLoop lib d ts c none (k : Int) lines).status =
        (if ((List.enumFrom k lines).map
          (fun p => convert lib d ts c ((p.1 : Int) + 1) p.2)).all succeeded then 0 else 1) ∧
      (scanLoop lib d ts c none (k : Int) lines).linesRead =
        min ((((List.enumFrom k lines).map
          (fun p => convert lib d ts c ((p.1 : Int) + 1) p.2)).takeWhile succeeded).length + 1)
          lines.length := by
  intro lines
  induction lines with
  | nil =>
    intro k
    simp [scanLoop, stderrOf]
  | cons line rest ih =>
    intro k
    obtain ⟨ih1, ih2, ih3, ih4⟩ := ih (k + 1)
    have hcast : (((k + 1 : Nat) : Int)) = (k : Int) + 1 := by push_cast; rfl
    rw [hcast] at ih1 ih2 ih3 ih4
    rcases convert_total lib d ts c ((k : Int) + 1) line with ⟨out, h⟩ | ⟨e, w, h, _⟩
    · simp only [scanLoop, h, List.enumFrom_cons, List.map_cons, List.takeWhile_cons, succeeded,
        if_true, outputOf, List.all_cons, Bool.true_and, List.length_cons, ih1, ih2, ih3, ih4,
        stderrOf, List.dropWhile_cons]
      refine ⟨trivial, trivial, trivial, ?_⟩
      omega
    · simp only [scanLoop, h, List.enumFrom_cons, List.map_cons, List.takeWhile_cons, succeeded,
        List.map_nil, List.all_cons, Bool.false_and, List.length_cons, List.length_nil,
        stderrOf, List.dropWhile_cons]
      refine ⟨by simp, by simp, by simp, ?_⟩
      simp

/-- C13: with an accepted configuration and an input that is a finite list of
lines ending cleanly, the lines printed are exactly the outputs of `convert`
on the lines before the first line on which `convert` fails (all lines when
none fails), in input order; the line at index `k` is passed the line number
`k + 1`, so that the error written to standard error is the error of the call
on the first failing line with its own line number; the exit status is 1 when
some line fails and 0 otherwise (also on the empty input); the failing line is
the last line read, so no line at or behind it produces output.  When
`flag.Parse` returns with this configuration, this run is the run of `main`. -/
theorem C13_output_is_prefix_before_first_failure (lib : Cases) (d : GoString)
    (T : FormatTargets) (cf : CaseFlag) (lines : List GoString)
    (hd : d ≠ []) (hT : T ≠ []) (hv : cf.Value ≠ Unknown) :
    (mainBody lib d T cf ⟨lines, none⟩).stdout =
      ((lineResults lib d (slicesSort T) cf.Value lines).takeWhile succeeded).map outputOf ∧
    (mainBody lib d T cf ⟨lines, none⟩).stderr =
      stderrOf (lineResults lib d (slicesSort T) cf.Value lines) ∧
    (mainBody lib d T cf ⟨lines, none⟩).status =
      (if (lineResults lib d (slicesSort T) cf.Value lines).all succeeded then 0 else 1) ∧
    (mainBody lib d T cf ⟨lines, none⟩).linesRead =
      min (((lineResults lib d (slicesSort T) cf.Value lines).takeWhile succeeded).length + 1)
        lines.length ∧
    (∀ (U Q : GoString → GoString) (args : List GoString),
      flagParse U Q args.length ⟨str ":", [], ⟨Unknown⟩⟩ args = .ok ⟨d, T, cf⟩ →
      main lib U Q args ⟨lines, none⟩ = mainBody lib d T cf ⟨lines, none⟩) := by
  have hbody := mainBody_of_accepted lib d T cf ⟨lines, none⟩ (by
    rintro (h | h | h)
    · exact hd h
    · exact hT h
    · exact hv h)
  have hspec := scanLoop_spec lib d (slicesSort T) cf.Value lines 0
  simp only [Nat.cast_zero] at hspec
  rw [hbody]
  exact ⟨hspec.1, hspec.2.1, hspec.2.2.1, hspec.2.2.2,
    fun U Q args hparse => (main_of_parsed lib U Q args ⟨lines, none⟩ ⟨d, T, cf⟩ hparse).trans
      hbody⟩

/-- C13, at three lines of which the second fails (the style is a value
outside the enumeration, the target 2 is in range on the second line only):
the first line is printed, the error names line 2, the status is 1, and the
third line is not read. -/
theorem C13_output_is_prefix_before_first_failure_witness :
    (mainBody asciiCases (str ":") [2] ⟨⟨17⟩⟩ ⟨[str "a", str "c:d", str "e:f"], none⟩).stdout
      = [str "a"] ∧
    (mainBody asciiCases (str ":") [2] ⟨⟨17⟩⟩ ⟨[str "a", str "c:d", str "e:f"], none⟩).stderr
      = [Stderr.println
          (str "error at: line=2 col=2 word=d case=Case(17), unknown case: Case(17)")] ∧
    (mainBody asciiCases (str ":") [2] ⟨⟨17⟩⟩ ⟨[str "a", str "c:d", str "e:f"], none⟩).status
      = 1 ∧
    (mainBody asciiCases (str ":") [2] ⟨⟨17⟩⟩ ⟨[str "a", str "c:d", str "e:f"], none⟩).linesRead
      = 2 :=
  have h := C13_output_is_prefix_before_first_failure asciiCases (str ":") [2] ⟨⟨17⟩⟩
    [str "a", str "c:d", str "e:f"] (by decide) (by decide) (by decide)
  ⟨h.1.trans (by decide), h.2.1.trans (by decide), h.2.2.1.trans (by decide),
    h.2.2.2.1.trans (by decide)⟩

/-! ## A `-case` value that `CaseFlag.Set` rejects -/

/-- Taking the value of a flag leaves no more arguments than there were. -/
theorem takeValue_length (g : Option GoString) (rest : List GoString) (v : GoString)
    (a : List GoString) (h : takeValue g rest = some (v, a)) : a.length ≤ rest.length := by
  cases g with
  | some v1 =>
    simp only [takeValue, Option.some.injEq, Prod.mk.injEq] at h
    rw [← h.2]
  | none =>
    cases rest with
    | nil => simp [takeValue] at h
    | cons v1 rest1 =>
      simp only [takeValue, Option.some.injEq, Prod.mk.injEq] at h
      rw [← h.2]
      simp

/-- Each accepted flag takes at least one argument. -/
theorem parseOne_seen_length (U Q : GoString → GoString) (fl fl1 : Flags)
    (args args1 : List GoString) (h : parseOne U Q fl args = .seen fl1 args1) :
    args1.length < args.length := by
  cases args with
  | nil => simp [parseOne] at h
  | cons s rest =>
    simp only [parseOne] at h
    split_ifs at h
    all_goals
      split at h
      · exact ParseStep.noConfusion h
      · rename_i value args2 hva
        have hlen := takeValue_length _ rest value args2 hva
        split at h
        · exact ParseStep.noConfusion h
        · exact ParseStep.noConfusion h
        · have hargs : args2 = args1 := by
            injection h
          subst hargs
          simp only [List.length_cons]
          omega

/-- After `j` accepted flags `flag.Parse` goes on from the state reached, with
rounds enough for the arguments left. -/
theorem flagParse_of_stateAfter (U Q : GoString → GoString) :
    ∀ (j : Nat) (fl : Flags) (args : List GoString) (fl1 : Flags) (args1 : List GoString)
      (k : Nat), stateAfter U Q j fl args = some (fl1, args1) → args.length ≤ k →
      ∃ k1, args1.length ≤ k1 ∧ flagParse U Q k fl args = flagParse U Q k1 fl1 args1 := by
  intro j
  induction j with
  | zero =>
    intro fl args fl1 args1 k h hk
    simp only [stateAfter, Option.some.injEq, Prod.mk.injEq] at h
    obtain ⟨h1, h2⟩ := h
    subst h1 h2
    exact ⟨k, hk, rfl⟩
  | succ j ih =>
    intro fl args fl1 args1 k h hk
    simp only [stateAfter] at h
    cases hstep : parseOne U Q fl args with
    | done => simp [hstep] at h
    | failed w b => simp [hstep] at h
    | seen fl2 args2 =>
      simp only [hstep] at h
      have hlen := parseOne_seen_length U Q fl fl2 args args2 hstep
      cases k with
      | zero => omega
      | succ k =>
        obtain ⟨k1, hk1, hparse⟩ := ih fl2 args2 fl1 args1 k h (by omega)
        refine ⟨k1, hk1, ?_⟩
        simp only [flagParse, hstep]
        exact hparse

/-- The four ways to write the flag `-case` with the value `v`: all reach
`CaseFlag.Set` with `v`, and an error of `Set` makes `parseOne` fail with the
message of package `flag` and the usage text. -/
theorem parseOne_case_error (U Q : GoString → GoString) (fl : Flags) (v : GoString)
    (rest : List GoString) (e : GoError) (form : List GoString)
    (hform : form = [str "-case", v] ∨ form = [str "--case", v] ∨
      form = [str "-case=" ++ v] ∨ form = [str "--case=" ++ v])
    (hset : (CaseFlag.Set U fl.caseFlag v).2 = some e) :
    parseOne U Q fl (form ++ rest) =
      .failed [Stderr.println (str "invalid value " ++ Q v ++ str " for flag -" ++ str "case"
        ++ str ": " ++ e), Stderr.usage] false := by
  have hsetFlag : setFlag U Q fl (str "case") v =
      some ({ fl with caseFlag := (CaseFlag.Set U fl.caseFlag v).1 },
        (CaseFlag.Set U fl.caseFlag v).2) := rfl
  have hstep : parseOne U Q fl (form ++ rest) =
      match setFlag U Q fl (str "case") v with
      | none => .done
      | some (_, some err) =>
        .failed [Stderr.println (str "invalid value " ++ Q v ++ str " for flag -" ++ str "case"
          ++ str ": " ++ err), Stderr.usage] false
      | some (fl1, none) => .seen fl1 rest := by
    rcases hform with h | h | h | h <;> subst h <;> rfl
  rw [hstep, hsetFlag, hset]

/-- C15 fails as stated: with the arguments `-targets 1 -case bogus` the
program ends with status 2, not 1, and standard error holds the message of
package `flag` and the usage text, not the list of style names. -/
theorem C15_bogus_case_counterexample :
    main asciiCases id asciiQuote [str "-targets", str "1", str "-case", str "bogus"]
        ⟨[str "a:b"], none⟩
      = ⟨[], [Stderr.println (str "invalid value " ++ asciiQuote (str "bogus")
          ++ str " for flag -case: invalid case: bogus"), Stderr.usage], 2, 0⟩ ∧
    Stderr.println availableListing ∉
      (main asciiCases id asciiQuote [str "-targets", str "1", str "-case", str "bogus"]
        ⟨[str "a:b"], none⟩).stderr := by
  decide

/-- C15, amended: every `-case` value `v` on which `CaseFlag.Set` returns an
error (such as "bogus") ends the program in `flag.Parse` with exit status 2,
wherever the flag stands on the command line behind any number of accepted
flags, and in each of the forms `-case v`, `--case v`, `-case=v` and
`--case=v`; standard error receives the message "invalid value ... for flag
-case: " followed by the error of `Set`, then the usage text, and not the list
of style names; nothing is written to standard output and no line is read. -/
theorem C15_rejected_case_value_exits_2 (lib : Cases) (U Q : GoString → GoString)
    (args : List GoString) (stdin : Stdin) (j : Nat) (fl : Flags) (v : GoString)
    (form rest : List GoString) (e : GoError)
    (hreach : stateAfter U Q j ⟨str ":", [], ⟨Unknown⟩⟩ args = some (fl, form ++ rest))
    (hform : form = [str "-case", v] ∨ form = [str "--case", v] ∨
      form = [str "-case=" ++ v] ∨ form = [str "--case=" ++ v])
    (hset : (CaseFlag.Set U fl.caseFlag v).2 = some e) :
    main lib U Q args stdin
      = ⟨[], [Stderr.println (str "invalid value " ++ Q v ++ str " for flag -" ++ str "case"
          ++ str ": " ++ e), Stderr.usage], 2, 0⟩ ∧
    Stderr.println availableListing ∉ (main lib U Q args stdin).stderr := by
  obtain ⟨k1, hk1, hparse⟩ := flagParse_of_stateAfter U Q j ⟨str ":", [], ⟨Unknown⟩⟩ args fl
    (form ++ rest) args.length hreach le_rfl
  have hpos : 0 < (form ++ rest).length := by
    rcases hform with h | h | h | h <;> subst h <;> simp
  have hmain : main lib U Q args stdin
      = ⟨[], [Stderr.println (str "invalid value " ++ Q v ++ str " for flag -" ++ str "case"
          ++ str ": " ++ e), Stderr.usage], 2, 0⟩ := by
    unfold main
    rw [hparse]
    cases k1 with
    | zero => omega
    | succ k1 =>
      simp only [flagParse, parseOne_case_error U Q fl v rest e form hform hset]
      rfl
  refine ⟨hmain, ?_⟩
  rw [hmain]
  intro hmem
  simp only [List.mem_cons, Stderr.println.injEq, List.mem_singleton, reduceCtorEq, or_false,
    List.not_mem_nil] at hmem
  have hhead := congrArg List.head? hmem
  have h1 : List.head? availableListing = some 65 := by decide
  have h2 : List.head? (str "invalid value " ++ Q v ++ str " for flag -" ++ str "case"
      ++ str ": " ++ e) = some 105 := rfl
  rw [h1, h2] at hhead
  exact absurd hhead (by decide)

/-- C15 amended, at the arguments `-targets 1 -case bogus`: the flag
`-targets 1` is accepted, then the value "bogus" is rejected. -/
theorem C15_rejected_case_value_exits_2_witness :
    main asciiCases id asciiQuote [str "-targets", str "1", str "-case", str "bogus"]
        ⟨[str "a:b"], none⟩
      = ⟨[], [Stderr.println (str "invalid value " ++ asciiQuote (str "bogus")
          ++ str " for flag -" ++ str "case" ++ str ": " ++ str "invalid case: bogus"),
          Stderr.usage], 2, 0⟩ ∧
    Stderr.println availableListing ∉
      (main asciiCases id asciiQuote [str "-targets", str "1", str "-case", str "bogus"]
        ⟨[str "a:b"], none⟩).stderr :=
  C15_rejected_case_value_exits_2 asciiCases id asciiQuote
    [str "-targets", str "1", str "-case", str "bogus"] ⟨[str "a:b"], none⟩ 1
    ⟨str ":", [1], ⟨Unknown⟩⟩ (str "bogus") [str "-case", str "bogus"] []
    (str "invalid case: bogus") (by decide) (by decide) (by decide)

end CaseChanger
